import Mathlib

/-!
A verification development for the snarfx reactive runtime.

The model below is a shallow embedding of the dependency-tracking core
(`_anchor.py`, `_tracking.py`, `observable.py`, `computed.py`, `reaction.py`,
`action.py`).  All node state lives in one record `St` mirroring the
`_anchor` tables plus the `_tracking` globals (`_batch_depth`, `_pending`).
Derivation functions (Python callables) are represented syntactically: a
`Computed` wraps a pure expression over cell/computed reads, a `Reaction`
wraps a list of commands (observe values, write cells, raise).  The
interpreter is fueled: `Res.spin` signals fuel exhaustion (a model artifact,
never a behavior of the program), `Res.exc` models a Python exception
carrying the state at the moment of the raise.
-/

namespace Snarfx

/-- Runtime values.  `int` models ordinary values compared by `==`;
`nan n` models an object with non-reflexive equality (NaN-like), where the
tag `n` stands for object identity. -/
inductive Val where
  | int : Int → Val
  | nan : Nat → Val
deriving DecidableEq, Repr

/-- Python `==` on modeled values: ints compare by value, NaN-likes are
unequal to everything, themselves included. -/
def veq : Val → Val → Bool
  | .int a, .int b => a == b
  | _, _ => false

/-- Python truthiness of a modeled value. -/
def truthy : Val → Bool
  | .int a => !(a == 0)
  | .nan _ => true

/-- Pointwise update of a table keyed by node id (one `_anchor` dict entry). -/
def upd {α : Type} (f : Nat → α) (k : Nat) (v : α) : Nat → α :=
  fun x => if x = k then v else f x

/-- `set.add`: insertion-ordered, deduplicated. -/
def insertD (d : Nat) (l : List Nat) : List Nat :=
  if d ∈ l then l else l ++ [d]

/-- `set.discard`. -/
def removeD (d : Nat) (l : List Nat) : List Nat :=
  l.filter (fun x => !(x == d))

/-- The whole mutable state of the engine: the `_anchor` tables, the
`_tracking` globals, and two instrumentation fields (`runCount` counts
invocations of each derivation's wrapped function, `log` records effect
output) that let theorems talk about observable behavior.  `cached = none`
models the `_UNSET` sentinel.  `lastValue`/`initialized` model the
`_DataReaction` fields. -/
structure St where
  values : Nat → Val
  observers : Nat → List Nat
  deps : Nat → List Nat
  dirty : Nat → Bool
  cached : Nat → Option Val
  disposed : Nat → Bool
  batchDepth : Nat
  pending : List Nat
  runCount : Nat → Nat
  lastValue : Nat → Val
  initialized : Nat → Bool
  log : List (Nat × List Val)

/-- Pure expressions: the body of a `Computed`, and the value-producing
parts of reaction bodies.  `readO` is `Observable.get`, `readC` is
`Computed.get`, `uop` applies a pure host function, `cond` branches on
truthiness. -/
inductive Expr where
  | lit : Val → Expr
  | readO : Nat → Expr
  | readC : Nat → Expr
  | uop : (Val → Val) → Expr → Expr
  | cond : Expr → Expr → Expr → Expr

/-- Commands making up a reaction body: `obs` evaluates a list of
expressions and appends the observed tuple to the log (a side effect such
as `log.append((a.get(), b.get()))`), `write` is `Observable.set`,
`failIf` raises an exception when the expression is truthy. -/
inductive Cmd where
  | obs : List Expr → Cmd
  | write : Nat → Expr → Cmd
  | failIf : Expr → Cmd

/-- What kind of node an id denotes, and its wrapped function.  This is the
(immutable after construction) content of `_anchor.derivation_fns`. -/
inductive NodeDef where
  | cell : NodeDef
  | comp : Expr → NodeDef
  | react : List Cmd → NodeDef
  | dreact : Expr → NodeDef

/-- Result of running a piece of engine code: normal completion, a Python
exception (with the state at the raise), or fuel exhaustion. -/
inductive Res (α : Type) where
  | ok : St → α → Res α
  | exc : St → Res α
  | spin : Res α

/-- The two registration lines guarded by `if derivation is not None` in
`Observable.get` / `Computed.get`: add the current derivation to the node's
observers and the node to the derivation's dependencies. -/
def registerDep (cur : Option Nat) (i : Nat) (st : St) : St :=
  match cur with
  | none => st
  | some d =>
      { st with
        observers := upd st.observers i (insertD d (st.observers i)),
        deps := upd st.deps d (insertD i (st.deps d)) }

/-- `for dep in dependencies[d]: dep._remove_observer(d)` — remove `d` from
the observers table of every node in the list. -/
def detachAll (d : Nat) : List Nat → (Nat → List Nat) → (Nat → List Nat)
  | [], obs => obs
  | x :: xs, obs => detachAll d xs (upd obs x (removeD d (obs x)))

/-- The shared detach prologue of `_recompute` / `Reaction._run` /
`dispose`: drop `d` from all dependencies' observer sets, then clear
`dependencies[d]`. -/
def clearDeps (d : Nat) (st : St) : St :=
  { st with
    observers := detachAll d (st.deps d) st.observers,
    deps := upd st.deps d [] }

/-- Prologue of a derivation run: detach from current dependencies and
count one invocation of the wrapped function. -/
def beginRun (d : Nat) (st : St) : St :=
  let st1 := clearDeps d st
  { st1 with runCount := upd st1.runCount d (st1.runCount d + 1) }

/-- One layer of expression evaluation.  `recEval` evaluates the body of a
nested dirty `Computed` (the recursive call through `Computed._recompute`).
Returns the value together with the list of node ids read at this
derivation level (the reads that were registered for `cur`).  A `readC` of
a node that is not a `Computed` is stuck (`spin`): in Python this would be
an attribute error on a non-derivation, and it never happens in well-formed
programs. -/
def evalCore (env : Nat → NodeDef)
    (recEval : Expr → Option Nat → St → Res (Val × List Nat)) :
    Expr → Option Nat → St → Res (Val × List Nat)
  | .lit v, _, st => .ok st (v, [])
  | .readO i, cur, st =>
      let st1 := registerDep cur i st
      .ok st1 (st1.values i, [i])
  | .readC i, cur, st =>
      let st1 := registerDep cur i st
      if st1.dirty i then
        match env i with
        | .comp body =>
            match recEval body (some i) (beginRun i st1) with
            | .ok st2 (v, _) =>
                .ok { st2 with
                        cached := upd st2.cached i (some v),
                        dirty := upd st2.dirty i false } (v, [i])
            | .exc st2 => .exc st2
            | .spin => .spin
        | _ => .spin
      else
        .ok st1 ((st1.cached i).getD (.int 0), [i])
  | .uop f e, cur, st =>
      match evalCore env recEval e cur st with
      | .ok st1 (v, rds) => .ok st1 (f v, rds)
      | .exc st1 => .exc st1
      | .spin => .spin
  | .cond c t e, cur, st =>
      match evalCore env recEval c cur st with
      | .ok st1 (v, rds) =>
          if truthy v then
            match evalCore env recEval t cur st1 with
            | .ok st2 (v2, rds2) => .ok st2 (v2, rds ++ rds2)
            | .exc st2 => .exc st2
            | .spin => .spin
          else
            match evalCore env recEval e cur st1 with
            | .ok st2 (v2, rds2) => .ok st2 (v2, rds ++ rds2)
            | .exc st2 => .exc st2
            | .spin => .spin
      | .exc st1 => .exc st1
      | .spin => .spin

/-- Fueled expression evaluation; the fuel bounds the nesting depth of
`Computed._recompute` calls. -/
def evalExpr (env : Nat → NodeDef) : Nat → Expr → Option Nat → St → Res (Val × List Nat)
  | 0, _, _, _ => .spin
  | fuel + 1, e, cur, st => evalCore env (evalExpr env fuel) e cur st

/-- Evaluate a list of expressions left to right (the reads performed by
one `obs` command). -/
def evalList (env : Nat → NodeDef) (fuel : Nat) (cur : Option Nat) :
    List Expr → St → Res (List Val × List Nat)
  | [], st => .ok st ([], [])
  | e :: es, st =>
      match evalExpr env fuel e cur st with
      | .ok st1 (v, rds) =>
          match evalList env fuel cur es st1 with
          | .ok st2 (vs, rds2) => .ok st2 (v :: vs, rds ++ rds2)
          | .exc st2 => .exc st2
          | .spin => .spin
      | .exc st1 => .exc st1
      | .spin => .spin

/-- `_tracking.schedule`, parameterized by the derivation runner `runD`:
inside a batch the derivation is added (deduplicated) to the pending set,
otherwise its `_run` is invoked immediately. -/
def scheduleW (runD : Nat → St → Res Unit) (d : Nat) (st : St) : Res Unit :=
  if st.batchDepth > 0 then
    .ok { st with pending := insertD d st.pending } ()
  else
    runD d st

/-- `for observer in list(observers[i]): schedule(observer)` over an
already-taken snapshot list. -/
def notifyListW (runD : Nat → St → Res Unit) : List Nat → St → Res Unit
  | [], st => .ok st ()
  | d :: ds, st =>
      match scheduleW runD d st with
      | .ok st1 _ => notifyListW runD ds st1
      | .exc st1 => .exc st1
      | .spin => .spin

/-- `Observable._set_direct` followed by `_notify`: no-op when the new
value is the identical object (`old is value`) or equal (`old == value`);
otherwise store and schedule every observer (snapshotted). -/
def setDirectW (runD : Nat → St → Res Unit) (i : Nat) (v : Val) (st : St) : Res Unit :=
  if st.values i = v then .ok st ()
  else if veq (st.values i) v then .ok st ()
  else
    let st1 := { st with values := upd st.values i v }
    notifyListW runD (st1.observers i) st1

/-- Run one reaction-body command at derivation level `rid`.  Returns the
node ids read at level `rid` (the reads the command registered for the
reaction), mirroring the reads list of `evalExpr`. -/
def runCmdW (env : Nat → NodeDef) (fuel : Nat) (runD : Nat → St → Res Unit) :
    Cmd → Nat → St → Res (List Nat)
  | .obs es, rid, st =>
      match evalList env fuel (some rid) es st with
      | .ok st1 (vs, rds) => .ok { st1 with log := st1.log ++ [(rid, vs)] } rds
      | .exc st1 => .exc st1
      | .spin => .spin
  | .write i e, rid, st =>
      match evalExpr env fuel e (some rid) st with
      | .ok st1 (v, rds) =>
          match setDirectW runD i v st1 with
          | .ok st2 _ => .ok st2 rds
          | .exc st2 => .exc st2
          | .spin => .spin
      | .exc st1 => .exc st1
      | .spin => .spin
  | .failIf e, rid, st =>
      match evalExpr env fuel e (some rid) st with
      | .ok st1 (v, rds) => if truthy v then .exc st1 else .ok st1 rds
      | .exc st1 => .exc st1
      | .spin => .spin

/-- Run a reaction body in sequence, stopping at the first exception;
returns the concatenated reads. -/
def runCmdsW (env : Nat → NodeDef) (fuel : Nat) (runD : Nat → St → Res Unit) :
    List Cmd → Nat → St → Res (List Nat)
  | [], _, st => .ok st []
  | c :: cs, rid, st =>
      match runCmdW env fuel runD c rid st with
      | .ok st1 rds =>
          match runCmdsW env fuel runD cs rid st1 with
          | .ok st2 rds2 => .ok st2 (rds ++ rds2)
          | .exc st2 => .exc st2
          | .spin => .spin
      | .exc st1 => .exc st1
      | .spin => .spin

/-- `derivation._run()` — the scheduler's uniform trigger operation,
dispatching on the node kind:
`Computed._run` marks dirty and propagates to its own observers (no
recomputation); a second trigger while dirty is a no-op.
`Reaction._run` returns early when disposed, otherwise detaches, re-tracks
and runs the wrapped function.
`_DataReaction._run` does the same but invokes the effect (modeled as a log
append) only when uninitialized or the data value changed by `==`. -/
def runDeriv (env : Nat → NodeDef) : Nat → Nat → St → Res Unit
  | 0, _, _ => .spin
  | fuel + 1, d, st =>
      match env d with
      | .cell => .ok st ()
      | .comp _ =>
          if st.dirty d then .ok st ()
          else
            let st1 := { st with dirty := upd st.dirty d true }
            notifyListW (runDeriv env fuel) (st1.observers d) st1
      | .react body =>
          if st.disposed d then .ok st ()
          else
            match runCmdsW env fuel (runDeriv env fuel) body d (beginRun d st) with
            | .ok st1 _ => .ok st1 ()
            | .exc st1 => .exc st1
            | .spin => .spin
      | .dreact dataFn =>
          if st.disposed d then .ok st ()
          else
            match evalExpr env fuel dataFn (some d) (beginRun d st) with
            | .ok st1 (v, _) =>
                if !(st1.initialized d) || !(veq v (st1.lastValue d)) then
                  .ok { st1 with
                          lastValue := upd st1.lastValue d v,
                          initialized := upd st1.initialized d true,
                          log := st1.log ++ [(d, [v])] } ()
                else .ok st1 ()
            | .exc st1 => .exc st1
            | .spin => .spin

/-- `for derivation in batch: derivation._run()` — one flush pass over a
snapshot, aborted by the first exception. -/
def runList (env : Nat → NodeDef) (fuel : Nat) : List Nat → St → Res Unit
  | [], st => .ok st ()
  | d :: ds, st =>
      match runDeriv env fuel d st with
      | .ok st1 _ => runList env fuel ds st1
      | .exc st1 => .exc st1
      | .spin => .spin

/-- `_tracking._flush_pending`: while the pending set is nonempty, snapshot
it, clear it, and run every member of the snapshot. -/
def flushPending (env : Nat → NodeDef) : Nat → St → Res Unit
  | 0, _ => .spin
  | fuel + 1, st =>
      if st.pending = [] then .ok st ()
      else
        match runList env fuel st.pending { st with pending := [] } with
        | .ok st1 _ => flushPending env fuel st1
        | .exc st1 => .exc st1
        | .spin => .spin

/-- `_tracking.begin_batch`. -/
def beginBatch (st : St) : St :=
  { st with batchDepth := st.batchDepth + 1 }

/-- `_tracking.end_batch`: decrement the depth and flush when the outermost
scope exits. -/
def endBatch (env : Nat → NodeDef) (fuel : Nat) (st : St) : Res Unit :=
  let st1 := { st with batchDepth := st.batchDepth - 1 }
  if st1.batchDepth = 0 then flushPending env fuel st1 else .ok st1 ()

/-- `_tracking.get_pending_count`. -/
def getPendingCount (st : St) : Nat :=
  st.pending.length

/-- `Computed.dispose`: detach from dependencies, clear own observers,
force dirty, drop the cached value. -/
def disposeComputed (c : Nat) (st : St) : St :=
  let st1 := clearDeps c st
  { st1 with
    observers := upd st1.observers c [],
    dirty := upd st1.dirty c true,
    cached := upd st1.cached c none }

/-- `Reaction.dispose` / `_DataReaction.dispose`: mark disposed, detach
from dependencies. -/
def disposeReaction (d : Nat) (st : St) : St :=
  clearDeps d { st with disposed := upd st.disposed d true }

/-- `Observable.__init__` for a fresh id. -/
def mkCell (i : Nat) (v : Val) (st : St) : St :=
  { st with values := upd st.values i v, observers := upd st.observers i [] }

/-- `Computed.__init__` for a fresh id: cached `_UNSET`, dirty, empty edge
sets; instrumentation counter starts at zero. -/
def mkComputed (c : Nat) (st : St) : St :=
  { st with
    cached := upd st.cached c none,
    dirty := upd st.dirty c true,
    deps := upd st.deps c [],
    observers := upd st.observers c [],
    runCount := upd st.runCount c 0 }

/-- `Reaction.__init__` for a fresh id. -/
def mkReaction (d : Nat) (st : St) : St :=
  { st with
    deps := upd st.deps d [],
    disposed := upd st.disposed d false,
    runCount := upd st.runCount d 0 }

/-- `autorun`: construct the reaction and run it once immediately. -/
def autorunNew (env : Nat → NodeDef) (fuel : Nat) (d : Nat) (st : St) : Res Unit :=
  runDeriv env fuel d (mkReaction d st)

/-- `_DataReaction.__init__` for a fresh id. -/
def mkDataReaction (d : Nat) (st : St) : St :=
  { st with
    deps := upd st.deps d [],
    disposed := upd st.disposed d false,
    runCount := upd st.runCount d 0,
    initialized := upd st.initialized d false,
    lastValue := upd st.lastValue d (.int 0) }

/-- The `reaction(data_fn, effect_fn, fire_immediately=...)` factory: with
`fireNow` it behaves like an initial `_run`; otherwise it evaluates the
data function under tracking, stores `last_value`, marks `initialized`,
and suppresses the effect. -/
def reactionNew (env : Nat → NodeDef) (fuel : Nat) (d : Nat) (fireNow : Bool) (st : St) : Res Unit :=
  let st0 := mkDataReaction d st
  if fireNow then runDeriv env fuel d st0
  else
    match env d with
    | .dreact dataFn =>
        let st1 := { st0 with runCount := upd st0.runCount d (st0.runCount d + 1) }
        match evalExpr env fuel dataFn (some d) st1 with
        | .ok st2 (v, _) =>
            .ok { st2 with
                    lastValue := upd st2.lastValue d v,
                    initialized := upd st2.initialized d true } ()
        | .exc st2 => .exc st2
        | .spin => .spin
    | _ => .spin

/-- Top-level public operations: owner-thread `Observable.set`,
`begin_batch` / `end_batch` (the transaction scope), a user-code
`Computed.get`, and the two dispose operations. -/
inductive Op where
  | set : Nat → Val → Op
  | beginB : Op
  | endB : Op
  | getC : Nat → Op
  | dispC : Nat → Op
  | dispR : Nat → Op

/-- Run one public operation. -/
def runOp (env : Nat → NodeDef) (fuel : Nat) : Op → St → Res Unit
  | .set i v, st => setDirectW (runDeriv env fuel) i v st
  | .beginB, st => .ok (beginBatch st) ()
  | .endB, st => endBatch env fuel st
  | .getC c, st =>
      match evalExpr env fuel (.readC c) none st with
      | .ok st1 _ => .ok st1 ()
      | .exc st1 => .exc st1
      | .spin => .spin
  | .dispC c, st => .ok (disposeComputed c st) ()
  | .dispR d, st => .ok (disposeReaction d st) ()

/-- Run a sequence of public operations, stopping at the first exception. -/
def runOps (env : Nat → NodeDef) (fuel : Nat) : List Op → St → Res Unit
  | [], st => .ok st ()
  | op :: ops, st =>
      match runOp env fuel op st with
      | .ok st1 _ => runOps env fuel ops st1
      | .exc st1 => .exc st1
      | .spin => .spin

/-- The empty engine state (fresh interpreter: empty `_anchor` tables,
depth 0, nothing pending). -/
def st0 : St :=
  { values := fun _ => .int 0
    observers := fun _ => []
    deps := fun _ => []
    dirty := fun _ => false
    cached := fun _ => none
    disposed := fun _ => false
    batchDepth := 0
    pending := []
    runCount := fun _ => 0
    lastValue := fun _ => .int 0
    initialized := fun _ => false
    log := [] }

/-- Extract the state from a run result (`st0` for the fuel artifact). -/
def stateOf {α : Type} : Res α → St
  | .ok st _ => st
  | .exc st => st
  | .spin => st0

/-- Did the run raise? -/
def isExc {α : Type} : Res α → Bool
  | .exc _ => true
  | _ => false

/-- State after a sequence of public operations. -/
def afterOps (env : Nat → NodeDef) (fuel : Nat) (ops : List Op) (st : St) : St :=
  stateOf (runOps env fuel ops st)

/-- Pending set after scheduling every member of a list during a batch. -/
def pendAll (l : List Nat) (p : List Nat) : List Nat :=
  l.foldl (fun acc d => insertD d acc) p

/-- What a cell write does while a batch is open: store the value (unless
suppressed) and add all observers to the pending set; nothing runs. -/
def batchSet (i : Nat) (v : Val) (st : St) : St :=
  if st.values i = v then st
  else if veq (st.values i) v then st
  else
    { st with
      values := upd st.values i v,
      pending := pendAll (st.observers i) st.pending }

/-- Symmetry of the dependency graph (invariant I1), over all node ids:
`d` observes `x` exactly when `x` is one of `d`'s dependencies. -/
def SymInv (st : St) : Prop :=
  ∀ x d : Nat, d ∈ st.observers x ↔ x ∈ st.deps d

/-- Symmetry restricted to a finite id universe (decidable, for concrete
states). -/
def SymInvOn (ns : List Nat) (st : St) : Prop :=
  ∀ x ∈ ns, ∀ d ∈ ns, (d ∈ st.observers x ↔ x ∈ st.deps d)

instance (ns : List Nat) (st : St) : Decidable (SymInvOn ns st) := by
  unfold SymInvOn
  infer_instance

/-- Lift a state predicate to run results: it must hold for normal and
exceptional outcomes (fuel exhaustion is a model artifact). -/
def ResP {α : Type} (P : St → Prop) : Res α → Prop
  | .ok st _ => P st
  | .exc st => P st
  | .spin => True

/- ### Concrete scenarios used by the claims -/

/-- C1: cells 1 and 2, eager reaction 3 logging the pair `(a, b)`. -/
def envC1 : Nat → NodeDef := fun n =>
  if n = 3 then .react [.obs [.readO 1, .readO 2]] else .cell

/-- C1 setup: create both cells, then `autorun` the logging reaction. -/
def initC1 (a0 b0 : Val) : St :=
  stateOf (autorunNew envC1 9 3 (mkCell 2 b0 (mkCell 1 a0 st0)))

/-- C2: reaction 2 raises when cell 1 is truthy; reaction 3 logs cell 1. -/
def envC2 : Nat → NodeDef := fun n =>
  if n = 2 then .react [.failIf (.readO 1)]
  else if n = 3 then .react [.obs [.readO 1]]
  else .cell

/-- C2 setup: cell 1 at 0 (so the initial runs do not raise), then both
reactions, the raising one first. -/
def initC2 : St :=
  stateOf (autorunNew envC2 9 3 (stateOf (autorunNew envC2 9 2 (mkCell 1 (.int 0) st0))))

/-- C2: a batched write to cell 1 makes both reactions pending; the flush
runs reaction 2 first, which raises. -/
def runC2 : Res Unit :=
  runOps envC2 9 [.beginB, .set 1 (.int 1), .endB] initC2

/-- C2: the state seen by the flush pass — depth back at zero, snapshot
`[2, 3]` taken and the pending set already cleared. -/
def c2Mid : St :=
  { afterOps envC2 9 [.beginB, .set 1 (.int 1)] initC2 with batchDepth := 0, pending := [] }

/-- C3: computed 2 reads cell 1; reaction 3 reads computed 2. -/
def envC3 : Nat → NodeDef := fun n =>
  if n = 2 then .comp (.readO 1)
  else if n = 3 then .react [.obs [.readC 2]]
  else .cell

/-- C3 setup: after the autorun, edges are 1↔2 and 2↔3, symmetrically. -/
def initC3 : St :=
  stateOf (autorunNew envC3 9 3 (mkComputed 2 (mkCell 1 (.int 5) st0)))

/-- C3: state right after `Computed.dispose` on node 2. -/
def finC3 : St := disposeComputed 2 initC3

/-- Successor on modeled ints. -/
def vsucc : Val → Val := fun v => match v with | .int k => .int (k + 1) | x => x

/-- C4: reaction 3 logs cell 1, then writes cell 2 (observed by reaction 4),
then logs a 99 marker; reaction 4 logs cell 2. -/
def envC4 : Nat → NodeDef := fun n =>
  if n = 3 then
    .react [.obs [.readO 1], .write 2 (.uop vsucc (.readO 1)), .obs [.lit (.int 99)]]
  else if n = 4 then .react [.obs [.readO 2]]
  else .cell

/-- C4 setup: cells 1 and 2, then reaction 3, then reaction 4. -/
def initC4 : St :=
  stateOf (autorunNew envC4 9 4 (stateOf (autorunNew envC4 9 3 (mkCell 2 (.int 0) (mkCell 1 (.int 0) st0)))))

/-- C4: write cell 1 inside a batch; flushing runs reaction 3, whose write
to cell 2 triggers reaction 4 mid-run. -/
def runC4 : Res Unit :=
  runOps envC4 9 [.beginB, .set 1 (.int 5), .endB] initC4

/-- Doubling on modeled ints. -/
def vdouble : Val → Val := fun v => match v with | .int k => .int (k * 2) | x => x

/-- C5: computed 2 doubles cell 1. -/
def envC5 : Nat → NodeDef := fun n =>
  if n = 2 then .comp (.uop vdouble (.readO 1)) else .cell

/-- C5 setup: cell 1 at 5 and the computed, not yet read. -/
def initC5 : St := mkComputed 2 (mkCell 1 (.int 5) st0)

/-- C6: reaction 4 reads `flag ? a : b` (cells 1, 2, 3). -/
def envC6 : Nat → NodeDef := fun n =>
  if n = 4 then .react [.obs [.cond (.readO 1) (.readO 2) (.readO 3)]] else .cell

/-- C6 setup: flag true, `a = 10`, `b = 20`, then the autorun. -/
def initC6 : St :=
  stateOf (autorunNew envC6 9 4 (mkCell 3 (.int 20) (mkCell 2 (.int 10) (mkCell 1 (.int 1) st0))))

/-- Parity on modeled ints. -/
def vparity : Val → Val := fun v => match v with | .int k => .int (k % 2) | x => x

/-- C8: value-gated reaction 2 tracking the parity of cell 1. -/
def envC8 : Nat → NodeDef := fun n =>
  if n = 2 then .dreact (.uop vparity (.readO 1)) else .cell

/-- C8 setup: cell 1 at 1, gated reaction created without firing. -/
def initC8 : St :=
  stateOf (reactionNew envC8 9 2 false (mkCell 1 (.int 1) st0))

/-- C9: computed 2 mirrors cell 1 (for the dirty-retrigger part); reaction
3 logs cell 1 (for the batch-dedup part). -/
def envC9 : Nat → NodeDef := fun n =>
  if n = 2 then .comp (.readO 1)
  else if n = 3 then .react [.obs [.readO 1]]
  else .cell

/-- C9 setup for the dirty part: read the computed once so it is clean. -/
def initC9c : St :=
  afterOps envC9 9 [.getC 2] (mkComputed 2 (mkCell 1 (.int 0) st0))

/-- C9 setup for the dedup part: cell 1 and the logging reaction. -/
def initC9r : St :=
  stateOf (autorunNew envC9 9 3 (mkCell 1 (.int 0) st0))

/-- C10: reaction 2 logs the NaN-holding cell 1. -/
def envC10 : Nat → NodeDef := fun n =>
  if n = 2 then .react [.obs [.readO 1]] else .cell

/-- C10 setup: cell 1 holds a NaN-like object. -/
def initC10 : St :=
  stateOf (autorunNew envC10 9 2 (mkCell 1 (.nan 0) st0))

/- ### Rank discipline for well-formed dependency graphs -/

/-- Every read in the expression targets a node of rank strictly below `r`
(the usual acyclicity discipline of a well-formed reactive graph). -/
def exprBelowB (rank : Nat → Nat) (r : Nat) : Expr → Bool
  | .lit _ => true
  | .readO i => decide (rank i < r)
  | .readC i => decide (rank i < r)
  | .uop _ e => exprBelowB rank r e
  | .cond c t e => exprBelowB rank r c && exprBelowB rank r t && exprBelowB rank r e

/-- Every computed's body reads only nodes ranked strictly below the
computed itself. -/
def envRanked (env : Nat → NodeDef) (rank : Nat → Nat) : Prop :=
  ∀ c body, env c = .comp body → exprBelowB rank (rank c) body = true

/-- A command that only observes, through rank-respecting reads. -/
def cmdObsBelow (rank : Nat → Nat) (r : Nat) : Cmd → Bool
  | .obs es => es.all (fun e => exprBelowB rank r e)
  | _ => false

/-- Frame of one evaluation step at current derivation `cur`, protecting
every node of rank at least `r`: run counters, dirty flags and caches of
protected nodes are untouched; dependency sets of protected nodes other
than `cur` are untouched; and `cur`'s own dependency set grows by exactly
the reads `rds`. -/
def FrameAt (rank : Nat → Nat) (r : Nat) (cur : Option Nat) (rds : List Nat)
    (st st' : St) : Prop :=
  (∀ d, r ≤ rank d →
      st'.runCount d = st.runCount d ∧ st'.dirty d = st.dirty d ∧
      st'.cached d = st.cached d) ∧
  (∀ d, r ≤ rank d → cur ≠ some d → st'.deps d = st.deps d) ∧
  (∀ d, r ≤ rank d → cur = some d →
      ∀ x, x ∈ st'.deps d ↔ x ∈ st.deps d ∨ x ∈ rds)

/-- Ranks for the C5 scenario: the computed above the cell. -/
def rankC5 : Nat → Nat := fun n => if n = 2 then 1 else 0

/-- Ranks for the C6 scenario: the reaction above the three cells. -/
def rankC6 : Nat → Nat := fun n => if n = 4 then 1 else 0

/-- C6: the body of reaction 4, as a named term for the witness. -/
def c6Body : List Cmd := [.obs [.cond (.readO 1) (.readO 2) (.readO 3)]]

/-- C6: the state before creating reaction 4. -/
def c6Pre : St := mkCell 3 (.int 20) (mkCell 2 (.int 10) (mkCell 1 (.int 1) st0))

/-- C5: the state of the scenario right after the first recompute's body
evaluation. -/
def c5Mid : St :=
  stateOf (evalExpr envC5 8 (.uop vdouble (.readO 1)) (some 2) (beginRun 2 initC5))

/-- C8: the state right after the first post-creation write stores 3. -/
def c8Trig : St := { initC8 with values := upd initC8.values 1 (.int 3) }

/-- C8: the state after the gated reaction's data function re-evaluated on
that trigger. -/
def c8Mid : St :=
  stateOf (evalExpr envC8 8 (.uop vparity (.readO 1)) (some 2) (beginRun 2 c8Trig))

/- ### Basic lemmas about the set primitives -/

@[simp]
theorem upd_self {α : Type} (f : Nat → α) (k : Nat) (v : α) : upd f k v k = v := by
  simp [upd]

theorem upd_ne {α : Type} (f : Nat → α) (k : Nat) (v : α) {x : Nat} (h : x ≠ k) :
    upd f k v x = f x := by
  simp [upd, h]

theorem mem_insertD (a b : Nat) (l : List Nat) : a ∈ insertD b l ↔ a = b ∨ a ∈ l := by
  unfold insertD
  by_cases h : b ∈ l
  · simp only [if_pos h]
    constructor
    · exact fun h1 => Or.inr h1
    · rintro (rfl | h1)
      · exact h
      · exact h1
  · simp [if_neg h, or_comm]

theorem insertD_idem (d : Nat) (l : List Nat) : insertD d (insertD d l) = insertD d l := by
  by_cases h : d ∈ l <;> simp [insertD, h]

theorem mem_removeD (a b : Nat) (l : List Nat) : a ∈ removeD b l ↔ a ∈ l ∧ a ≠ b := by
  simp [removeD, List.mem_filter]

theorem mem_detachAll (d : Nat) (l : List Nat) (obs : Nat → List Nat) (x a : Nat) :
    a ∈ detachAll d l obs x ↔ a ∈ obs x ∧ ¬(a = d ∧ x ∈ l) := by
  induction l generalizing obs with
  | nil => simp [detachAll]
  | cons y ys ih =>
      rw [detachAll, ih]
      by_cases hxy : x = y
      · subst hxy
        simp only [upd_self, mem_removeD, List.mem_cons]
        tauto
      · rw [upd_ne _ _ _ hxy]
        simp only [List.mem_cons]
        tauto

/- ### Projection lemmas: which fields each primitive leaves alone -/

@[simp]
theorem registerDep_values (cur : Option Nat) (i : Nat) (st : St) :
    (registerDep cur i st).values = st.values := by
  cases cur <;> rfl

@[simp]
theorem registerDep_dirty (cur : Option Nat) (i : Nat) (st : St) :
    (registerDep cur i st).dirty = st.dirty := by
  cases cur <;> rfl

@[simp]
theorem registerDep_cached (cur : Option Nat) (i : Nat) (st : St) :
    (registerDep cur i st).cached = st.cached := by
  cases cur <;> rfl

@[simp]
theorem registerDep_runCount (cur : Option Nat) (i : Nat) (st : St) :
    (registerDep cur i st).runCount = st.runCount := by
  cases cur <;> rfl

@[simp]
theorem registerDep_log (cur : Option Nat) (i : Nat) (st : St) :
    (registerDep cur i st).log = st.log := by
  cases cur <;> rfl

@[simp]
theorem registerDep_pending (cur : Option Nat) (i : Nat) (st : St) :
    (registerDep cur i st).pending = st.pending := by
  cases cur <;> rfl

@[simp]
theorem registerDep_batchDepth (cur : Option Nat) (i : Nat) (st : St) :
    (registerDep cur i st).batchDepth = st.batchDepth := by
  cases cur <;> rfl

@[simp]
theorem registerDep_disposed (cur : Option Nat) (i : Nat) (st : St) :
    (registerDep cur i st).disposed = st.disposed := by
  cases cur <;> rfl

/-- Dependencies after registration: only the current derivation's set can
change, by insertion of the read node. -/
theorem registerDep_deps (cur : Option Nat) (i : Nat) (st : St) (d : Nat) :
    (registerDep cur i st).deps d =
      if cur = some d then insertD i (st.deps d) else st.deps d := by
  cases cur with
  | none => simp [registerDep]
  | some e =>
      by_cases h : e = d
      · subst h; simp [registerDep]
      · simp only [registerDep, Option.some.injEq]
        rw [if_neg h, upd_ne _ _ _ (fun h1 => h (h1.symm))]

/-- Observers after registration: only the read node's set can change. -/
theorem registerDep_observers (cur : Option Nat) (i : Nat) (st : St) (x : Nat) :
    (registerDep cur i st).observers x =
      match cur with
      | none => st.observers x
      | some e => if x = i then insertD e (st.observers i) else st.observers x := by
  cases cur with
  | none => rfl
  | some e =>
      by_cases h : x = i
      · subst h; simp [registerDep]
      · simp only [registerDep]
        rw [upd_ne _ _ _ h, if_neg h]

@[simp]
theorem clearDeps_values (d : Nat) (st : St) : (clearDeps d st).values = st.values := rfl

@[simp]
theorem clearDeps_dirty (d : Nat) (st : St) : (clearDeps d st).dirty = st.dirty := rfl

@[simp]
theorem clearDeps_cached (d : Nat) (st : St) : (clearDeps d st).cached = st.cached := rfl

@[simp]
theorem clearDeps_runCount (d : Nat) (st : St) : (clearDeps d st).runCount = st.runCount := rfl

@[simp]
theorem clearDeps_log (d : Nat) (st : St) : (clearDeps d st).log = st.log := rfl

@[simp]
theorem clearDeps_pending (d : Nat) (st : St) : (clearDeps d st).pending = st.pending := rfl

@[simp]
theorem clearDeps_batchDepth (d : Nat) (st : St) :
    (clearDeps d st).batchDepth = st.batchDepth := rfl

@[simp]
theorem clearDeps_disposed (d : Nat) (st : St) : (clearDeps d st).disposed = st.disposed := rfl

theorem clearDeps_deps (d : Nat) (st : St) (e : Nat) :
    (clearDeps d st).deps e = if e = d then [] else st.deps e := by
  by_cases h : e = d
  · subst h; simp [clearDeps]
  · simp only [clearDeps]
    rw [if_neg h, upd_ne _ _ _ h]

theorem mem_clearDeps_observers (d : Nat) (st : St) (x a : Nat) :
    a ∈ (clearDeps d st).observers x ↔ a ∈ st.observers x ∧ ¬(a = d ∧ x ∈ st.deps d) := by
  simp only [clearDeps]
  exact mem_detachAll d (st.deps d) st.observers x a

/- ### Frame lemmas: evaluation touches only low-ranked nodes -/

theorem FrameAt_nil (rank : Nat → Nat) (r : Nat) (cur : Option Nat) (st : St) :
    FrameAt rank r cur [] st st := by
  refine ⟨fun d _ => ⟨rfl, rfl, rfl⟩, fun d _ _ => rfl, fun d _ _ x => by simp⟩

theorem FrameAt_rds_iff {rank : Nat → Nat} {r : Nat} {cur : Option Nat}
    {rds rds' : List Nat} {st st' : St}
    (h : FrameAt rank r cur rds st st') (hiff : ∀ x, x ∈ rds ↔ x ∈ rds') :
    FrameAt rank r cur rds' st st' := by
  refine ⟨h.1, h.2.1, fun d hr hc x => ?_⟩
  have h2 := h.2.2 d hr hc x
  rw [hiff x] at h2
  exact h2

theorem FrameAt_comp {rank : Nat → Nat} {r : Nat} {cur : Option Nat}
    {rds1 rds2 : List Nat} {st st1 st2 : St}
    (h1 : FrameAt rank r cur rds1 st st1) (h2 : FrameAt rank r cur rds2 st1 st2) :
    FrameAt rank r cur (rds1 ++ rds2) st st2 := by
  refine ⟨fun d hr => ?_, fun d hr hc => ?_, fun d hr hc x => ?_⟩
  · obtain ⟨a1, b1, c1⟩ := h1.1 d hr
    obtain ⟨a2, b2, c2⟩ := h2.1 d hr
    exact ⟨a2.trans a1, b2.trans b1, c2.trans c1⟩
  · exact (h2.2.1 d hr hc).trans (h1.2.1 d hr hc)
  · rw [h2.2.2 d hr hc x, h1.2.2 d hr hc x, List.mem_append]
    tauto

theorem FrameAt_register (rank : Nat → Nat) (r : Nat) (cur : Option Nat) (i : Nat)
    (st : St) (_hi : rank i < r) :
    FrameAt rank r cur [i] st (registerDep cur i st) := by
  refine ⟨fun d hr => by simp, fun d hr hc => ?_, fun d hr hc x => ?_⟩
  · rw [registerDep_deps, if_neg hc]
  · rw [registerDep_deps, if_pos hc]
    simp [mem_insertD, or_comm]

theorem FrameAt_beginRun (rank : Nat → Nat) (r : Nat) (cur : Option Nat) (i : Nat)
    (st : St) (hi : rank i < r) :
    FrameAt rank r cur [] st (beginRun i st) := by
  have hne : ∀ d, r ≤ rank d → d ≠ i := fun d hr hdi => by subst hdi; omega
  refine ⟨fun d hr => ⟨?_, rfl, rfl⟩, fun d hr hc => ?_, fun d hr hc x => ?_⟩
  · show upd (clearDeps i st).runCount i ((clearDeps i st).runCount i + 1) d = st.runCount d
    rw [upd_ne _ _ _ (hne d hr)]
    rfl
  · show (clearDeps i st).deps d = st.deps d
    rw [clearDeps_deps, if_neg (hne d hr)]
  · show x ∈ (clearDeps i st).deps d ↔ x ∈ st.deps d ∨ x ∈ []
    rw [clearDeps_deps, if_neg (hne d hr)]
    simp

theorem FrameAt_update_ic (rank : Nat → Nat) (r : Nat) (cur : Option Nat) (i : Nat)
    (st : St) (v : Val) (hi : rank i < r) :
    FrameAt rank r cur [] st
      { st with cached := upd st.cached i (some v), dirty := upd st.dirty i false } := by
  have hne : ∀ d, r ≤ rank d → d ≠ i := fun d hr hdi => by subst hdi; omega
  refine ⟨fun d hr => ⟨rfl, ?_, ?_⟩, fun d _ _ => rfl, fun d _ _ x => by simp⟩
  · exact upd_ne _ _ _ (hne d hr)
  · exact upd_ne _ _ _ (hne d hr)

theorem FrameAt_log (rank : Nat → Nat) (r : Nat) (cur : Option Nat) (st : St)
    (X : List (Nat × List Val)) :
    FrameAt rank r cur [] st { st with log := X } := by
  refine ⟨fun d _ => ⟨rfl, rfl, rfl⟩, fun d _ _ => rfl, fun d _ _ x => by simp⟩

theorem FrameAt_lift {rank : Nat → Nat} {r i : Nat} {rds : List Nat} {st st' : St}
    (hi : rank i < r) (h : FrameAt rank (rank i) (some i) rds st st')
    (cur : Option Nat) :
    FrameAt rank r cur [] st st' := by
  have hle : ∀ d, r ≤ rank d → rank i ≤ rank d := fun d hr => le_trans (le_of_lt hi) hr
  have hne : ∀ d, r ≤ rank d → i ≠ d := fun d hr hdi => by subst hdi; omega
  refine ⟨fun d hr => h.1 d (hle d hr), fun d hr hc => ?_, fun d hr hc x => ?_⟩
  · exact h.2.1 d (hle d hr) (fun hh => hne d hr (Option.some.inj hh))
  · rw [h.2.1 d (hle d hr) (fun hh => hne d hr (Option.some.inj hh))]
    simp

/-- The central frame theorem: a successful expression evaluation under the
rank discipline only recomputes nodes of rank below `r` — every node of
rank at least `r` keeps its run counter, dirty flag and cache, keeps its
dependency set when it is not the current derivation, and, when it is the
current derivation, gains exactly the reads of this evaluation. -/
theorem evalExpr_frame (env : Nat → NodeDef) (rank : Nat → Nat) (henv : envRanked env rank) :
    ∀ (fuel : Nat) (e : Expr) (cur : Option Nat) (st st' : St) (v : Val)
      (rds : List Nat) (r : Nat),
      exprBelowB rank r e = true →
      evalExpr env fuel e cur st = .ok st' (v, rds) →
      FrameAt rank r cur rds st st' := by
  intro fuel
  induction fuel with
  | zero =>
      intro e cur st st' v rds r hb h
      simp [evalExpr] at h
  | succ fuel ih =>
      intro e
      induction e with
      | lit w =>
          intro cur st st' v rds r hb h
          rw [evalExpr, evalCore] at h
          cases h
          exact FrameAt_nil rank r cur st
      | readO i =>
          intro cur st st' v rds r hb h
          have hi : rank i < r := by simpa [exprBelowB] using hb
          rw [evalExpr] at h
          simp only [evalCore] at h
          cases h
          exact FrameAt_register rank r cur i st hi
      | readC i =>
          intro cur st st' v rds r hb h
          have hi : rank i < r := by simpa [exprBelowB] using hb
          rw [evalExpr] at h
          simp only [evalCore] at h
          by_cases hd : (registerDep cur i st).dirty i = true
          · rw [if_pos hd] at h
            cases henvi : env i with
            | comp body =>
                simp only [henvi] at h
                cases heval :
                    evalExpr env fuel body (some i) (beginRun i (registerDep cur i st)) with
                | ok st2 pr =>
                    obtain ⟨v2, rds2⟩ := pr
                    simp only [heval] at h
                    injection h with h1 h2
                    injection h2 with h2a h2b
                    subst h1
                    subst h2a
                    subst h2b
                    have f1 := FrameAt_register rank r cur i st hi
                    have f2 := FrameAt_beginRun rank r cur i (registerDep cur i st) hi
                    have f3 := FrameAt_lift hi
                      (ih body (some i) (beginRun i (registerDep cur i st)) st2 v2 rds2
                        (rank i) (henv i body henvi) heval) cur
                    have f4 := FrameAt_update_ic rank r cur i st2 v2 hi
                    have fall := FrameAt_comp (FrameAt_comp (FrameAt_comp f1 f2) f3) f4
                    exact FrameAt_rds_iff fall (by simp)
                | exc st2 =>
                    rw [heval] at h
                    cases h
                | spin =>
                    rw [heval] at h
                    cases h
            | cell =>
                simp [henvi] at h
            | react b =>
                simp [henvi] at h
            | dreact f =>
                simp [henvi] at h
          · rw [if_neg hd] at h
            cases h
            exact FrameAt_register rank r cur i st hi
      | uop f e ihe =>
          intro cur st st' v rds r hb h
          have hb1 : exprBelowB rank r e = true := by simpa [exprBelowB] using hb
          rw [evalExpr] at h
          simp only [evalCore] at h
          cases heval : evalCore env (evalExpr env fuel) e cur st with
          | ok st1 pr =>
              obtain ⟨v1, rds1⟩ := pr
              simp only [heval] at h
              injection h with h1 h2
              injection h2 with h2a h2b
              subst h1
              subst h2a
              subst h2b
              exact ihe cur st st1 v1 rds1 r hb1 heval
          | exc st1 =>
              rw [heval] at h
              cases h
          | spin =>
              rw [heval] at h
              cases h
      | cond c t e2 ihc iht ihe2 =>
          intro cur st st' v rds r hb h
          have hbs : (exprBelowB rank r c = true ∧ exprBelowB rank r t = true) ∧
              exprBelowB rank r e2 = true := by
            simpa [exprBelowB, Bool.and_eq_true] using hb
          obtain ⟨⟨hbc, hbt⟩, hbe⟩ := hbs
          rw [evalExpr] at h
          simp only [evalCore] at h
          cases heval : evalCore env (evalExpr env fuel) c cur st with
          | ok st1 pr =>
              obtain ⟨v1, rds1⟩ := pr
              simp only [heval] at h
              by_cases ht : truthy v1 = true
              · rw [if_pos ht] at h
                cases heval2 : evalCore env (evalExpr env fuel) t cur st1 with
                | ok st2 pr2 =>
                    obtain ⟨v2, rds2⟩ := pr2
                    simp only [heval2] at h
                    injection h with h1 h2
                    injection h2 with h2a h2b
                    subst h1
                    subst h2a
                    subst h2b
                    exact FrameAt_comp (ihc cur st st1 v1 rds1 r hbc heval)
                      (iht cur st1 st2 v2 rds2 r hbt heval2)
                | exc st2 =>
                    rw [heval2] at h
                    cases h
                | spin =>
                    rw [heval2] at h
                    cases h
              · rw [if_neg ht] at h
                cases heval2 : evalCore env (evalExpr env fuel) e2 cur st1 with
                | ok st2 pr2 =>
                    obtain ⟨v2, rds2⟩ := pr2
                    simp only [heval2] at h
                    injection h with h1 h2
                    injection h2 with h2a h2b
                    subst h1
                    subst h2a
                    subst h2b
                    exact FrameAt_comp (ihc cur st st1 v1 rds1 r hbc heval)
                      (ihe2 cur st1 st2 v2 rds2 r hbe heval2)
                | exc st2 =>
                    rw [heval2] at h
                    cases h
                | spin =>
                    rw [heval2] at h
                    cases h
          | exc st1 =>
              rw [heval] at h
              cases h
          | spin =>
              rw [heval] at h
              cases h

/-- Frame for a list of reads (one `obs` command). -/
theorem evalList_frame (env : Nat → NodeDef) (rank : Nat → Nat) (henv : envRanked env rank)
    (fuel : Nat) (cur : Option Nat) :
    ∀ (es : List Expr) (st st' : St) (vs : List Val) (rds : List Nat) (r : Nat),
      es.all (fun e => exprBelowB rank r e) = true →
      evalList env fuel cur es st = .ok st' (vs, rds) →
      FrameAt rank r cur rds st st' := by
  intro es
  induction es with
  | nil =>
      intro st st' vs rds r hb h
      rw [evalList] at h
      cases h
      exact FrameAt_nil rank r cur st
  | cons e es ihe =>
      intro st st' vs rds r hb h
      have hbs : exprBelowB rank r e = true ∧
          es.all (fun e => exprBelowB rank r e) = true := by
        simpa [List.all_cons, Bool.and_eq_true] using hb
      rw [evalList] at h
      cases heval : evalExpr env fuel e cur st with
      | ok st1 pr =>
          obtain ⟨v1, rds1⟩ := pr
          simp only [heval] at h
          cases heval2 : evalList env fuel cur es st1 with
          | ok st2 pr2 =>
              obtain ⟨vs2, rds2⟩ := pr2
              simp only [heval2] at h
              injection h with h1 h2
              injection h2 with h2a h2b
              subst h1
              subst h2a
              subst h2b
              exact FrameAt_comp
                (evalExpr_frame env rank henv fuel e cur st st1 v1 rds1 r hbs.1 heval)
                (ihe st1 st2 vs2 rds2 r hbs.2 heval2)
          | exc st2 =>
              rw [heval2] at h
              cases h
          | spin =>
              rw [heval2] at h
              cases h
      | exc st1 =>
          rw [heval] at h
          cases h
      | spin =>
          rw [heval] at h
          cases h

/-- Frame for an observe-only reaction body. -/
theorem runCmdsW_frame_obs (env : Nat → NodeDef) (rank : Nat → Nat)
    (henv : envRanked env rank) (fuel : Nat) (runD : Nat → St → Res Unit) (d : Nat) :
    ∀ (cmds : List Cmd) (st st' : St) (rds : List Nat),
      cmds.all (cmdObsBelow rank (rank d)) = true →
      runCmdsW env fuel runD cmds d st = .ok st' rds →
      FrameAt rank (rank d) (some d) rds st st' := by
  intro cmds
  induction cmds with
  | nil =>
      intro st st' rds hb h
      rw [runCmdsW] at h
      cases h
      exact FrameAt_nil rank (rank d) (some d) st
  | cons c cs ihc =>
      intro st st' rds hb h
      have hbs : cmdObsBelow rank (rank d) c = true ∧
          cs.all (cmdObsBelow rank (rank d)) = true := by
        simpa [List.all_cons, Bool.and_eq_true] using hb
      cases c with
      | obs es =>
          rw [runCmdsW] at h
          simp only [runCmdW] at h
          cases heval : evalList env fuel (some d) es st with
          | ok st1 pr =>
              obtain ⟨vs, rds1⟩ := pr
              simp only [heval] at h
              cases hrest : runCmdsW env fuel runD cs d
                  { st1 with log := st1.log ++ [(d, vs)] } with
              | ok st2 rds2 =>
                  simp only [hrest] at h
                  injection h with h1 h2
                  subst h1
                  subst h2
                  have f1 := evalList_frame env rank henv fuel (some d) es st st1 vs rds1
                    (rank d) (by simpa [cmdObsBelow] using hbs.1) heval
                  have f2 := FrameAt_log rank (rank d) (some d) st1 (st1.log ++ [(d, vs)])
                  have f3 := ihc _ st2 rds2 hbs.2 hrest
                  exact FrameAt_rds_iff (FrameAt_comp (FrameAt_comp f1 f2) f3) (by simp)
              | exc st2 =>
                  rw [hrest] at h
                  cases h
              | spin =>
                  rw [hrest] at h
                  cases h
          | exc st1 =>
              rw [heval] at h
              cases h
          | spin =>
              rw [heval] at h
              cases h
      | write i e =>
          simp [cmdObsBelow] at hbs
      | failIf e =>
          simp [cmdObsBelow] at hbs

theorem beginRun_runCount_self (d : Nat) (st : St) :
    (beginRun d st).runCount d = st.runCount d + 1 := by
  simp [beginRun]

theorem beginRun_deps_self (d : Nat) (st : St) : (beginRun d st).deps d = [] := by
  show (clearDeps d st).deps d = []
  rw [clearDeps_deps, if_pos rfl]

/- ### Symmetry (invariant I1) of the primitive graph operations -/

theorem registerDep_observers_some (e i : Nat) (st : St) (x : Nat) :
    (registerDep (some e) i st).observers x =
      if x = i then insertD e (st.observers i) else st.observers x := by
  by_cases hx : x = i
  · subst hx
    simp [registerDep]
  · simp only [registerDep]
    rw [upd_ne _ _ _ hx, if_neg hx]

theorem SymInv_ext {st st' : St} (hobs : st'.observers = st.observers)
    (hdeps : st'.deps = st.deps) (h : SymInv st) : SymInv st' := by
  intro x d
  rw [hobs, hdeps]
  exact h x d

theorem SymInv_st0 : SymInv st0 := by
  intro x d
  simp [st0]

theorem SymInv_registerDep {st : St} (h : SymInv st) (cur : Option Nat) (i : Nat) :
    SymInv (registerDep cur i st) := by
  cases cur with
  | none => exact h
  | some e =>
      intro x d
      rw [registerDep_observers_some, registerDep_deps]
      by_cases hx : x = i
      · subst hx
        rw [if_pos rfl]
        by_cases hde : e = d
        · subst hde
          rw [if_pos rfl, mem_insertD, mem_insertD]
          tauto
        · rw [if_neg (fun hh => hde (Option.some.inj hh)), mem_insertD]
          constructor
          · rintro (hh | hm)
            · exact absurd hh.symm hde
            · exact (h x d).mp hm
          · intro hm
            exact Or.inr ((h x d).mpr hm)
      · rw [if_neg hx]
        by_cases hde : e = d
        · subst hde
          rw [if_pos rfl, mem_insertD]
          constructor
          · intro hm
            exact Or.inr ((h x e).mp hm)
          · rintro (hh | hm)
            · exact absurd hh hx
            · exact (h x e).mpr hm
        · rw [if_neg (fun hh => hde (Option.some.inj hh))]
          exact h x d

theorem SymInv_clearDeps {st : St} (h : SymInv st) (d : Nat) :
    SymInv (clearDeps d st) := by
  intro x e
  rw [clearDeps_deps, mem_clearDeps_observers]
  by_cases hed : e = d
  · rw [if_pos hed]
    simp only [List.not_mem_nil, iff_false]
    rintro ⟨hmem, hnot⟩
    exact hnot ⟨hed, hed ▸ ((h x e).mp hmem)⟩
  · rw [if_neg hed]
    constructor
    · rintro ⟨hmem, _⟩
      exact (h x e).mp hmem
    · intro hm
      exact ⟨(h x e).mpr hm, fun hpair => hed hpair.1⟩

theorem SymInv_beginRun {st : St} (h : SymInv st) (d : Nat) :
    SymInv (beginRun d st) :=
  SymInv_ext rfl rfl (SymInv_clearDeps h d)

theorem SymInv_disposeReaction {st : St} (h : SymInv st) (d : Nat) :
    SymInv (disposeReaction d st) :=
  SymInv_clearDeps (SymInv_ext rfl rfl h) d

theorem SymInv_disposeComputed {st : St} (h : SymInv st) (c : Nat)
    (hobs : st.observers c = []) : SymInv (disposeComputed c st) := by
  have h1 : SymInv (clearDeps c st) := SymInv_clearDeps h c
  intro x d
  show d ∈ upd (clearDeps c st).observers c [] x ↔ x ∈ (clearDeps c st).deps d
  by_cases hx : x = c
  · rw [hx, upd_self]
    simp only [List.not_mem_nil, false_iff]
    intro hm
    have h2 := (h1 c d).mpr hm
    rw [mem_clearDeps_observers, hobs] at h2
    exact absurd h2.1 (List.not_mem_nil d)
  · rw [upd_ne _ _ _ hx]
    exact h1 x d

theorem SymInv_mkCell {st : St} (h : SymInv st) (i : Nat) (v : Val)
    (hobs : st.observers i = []) : SymInv (mkCell i v st) := by
  intro x d
  show d ∈ upd st.observers i [] x ↔ x ∈ st.deps d
  by_cases hx : x = i
  · rw [hx, upd_self]
    simp only [List.not_mem_nil, false_iff]
    intro hm
    have h2 := (h i d).mpr hm
    rw [hobs] at h2
    exact absurd h2 (List.not_mem_nil d)
  · rw [upd_ne _ _ _ hx]
    exact h x d

theorem SymInv_mkComputed {st : St} (h : SymInv st) (c : Nat)
    (hobs : st.observers c = []) (hdeps : st.deps c = []) :
    SymInv (mkComputed c st) := by
  intro x d
  show d ∈ upd st.observers c [] x ↔ x ∈ upd st.deps c [] d
  by_cases hx : x = c <;> by_cases hd : d = c
  · rw [hx, hd, upd_self, upd_self]
  · rw [hx, upd_self, upd_ne _ _ _ hd]
    simp only [List.not_mem_nil, false_iff]
    intro hm
    have h2 := (h c d).mpr hm
    rw [hobs] at h2
    exact absurd h2 (List.not_mem_nil d)
  · rw [hd, upd_ne _ _ _ hx, upd_self]
    simp only [List.not_mem_nil, iff_false]
    intro hm
    have h2 := (h x c).mp hm
    rw [hdeps] at h2
    exact absurd h2 (List.not_mem_nil x)
  · rw [upd_ne _ _ _ hx, upd_ne _ _ _ hd]
    exact h x d

theorem SymInv_mkReaction {st : St} (h : SymInv st) (d : Nat)
    (hdeps : st.deps d = []) : SymInv (mkReaction d st) := by
  intro x e
  show e ∈ st.observers x ↔ x ∈ upd st.deps d [] e
  by_cases he : e = d
  · subst he
    rw [upd_self, ← hdeps]
    exact h x e
  · rw [upd_ne _ _ _ he]
    exact h x e

theorem SymInv_mkDataReaction {st : St} (h : SymInv st) (d : Nat)
    (hdeps : st.deps d = []) : SymInv (mkDataReaction d st) := by
  intro x e
  show e ∈ st.observers x ↔ x ∈ upd st.deps d [] e
  by_cases he : e = d
  · subst he
    rw [upd_self, ← hdeps]
    exact h x e
  · rw [upd_ne _ _ _ he]
    exact h x e

theorem ResP_evalCore (env : Nat → NodeDef)
    (recEval : Expr → Option Nat → St → Res (Val × List Nat))
    (hrec : ∀ e cur st, SymInv st → ResP SymInv (recEval e cur st)) :
    ∀ (e : Expr) (cur : Option Nat) (st : St), SymInv st →
      ResP SymInv (evalCore env recEval e cur st) := by
  intro e
  induction e with
  | lit v => intro cur st h; exact h
  | readO i => intro cur st h; exact SymInv_registerDep h cur i
  | readC i =>
      intro cur st h
      simp only [evalCore]
      by_cases hd : (registerDep cur i st).dirty i = true
      · rw [if_pos hd]
        cases henvi : env i with
        | comp body =>
            simp only [henvi]
            have hst1 : SymInv (beginRun i (registerDep cur i st)) :=
              SymInv_beginRun (SymInv_registerDep h cur i) i
            have hres := hrec body (some i) (beginRun i (registerDep cur i st)) hst1
            cases hr : recEval body (some i) (beginRun i (registerDep cur i st)) with
            | ok st2 pr =>
                obtain ⟨v2, rds2⟩ := pr
                rw [hr] at hres
                simp only [hr]
                exact SymInv_ext rfl rfl hres
            | exc st2 =>
                rw [hr] at hres
                simp only [hr]
                exact hres
            | spin => simp only [hr]; trivial
        | cell => simp only [henvi]; trivial
        | react b => simp only [henvi]; trivial
        | dreact f => simp only [henvi]; trivial
      · rw [if_neg hd]
        exact SymInv_registerDep h cur i
  | uop f e ihe =>
      intro cur st h
      simp only [evalCore]
      cases hr : evalCore env recEval e cur st with
      | ok st1 pr =>
          obtain ⟨v1, rds1⟩ := pr
          have h1 := ihe cur st h
          rw [hr] at h1
          simp only [hr]
          exact h1
      | exc st1 =>
          have h1 := ihe cur st h
          rw [hr] at h1
          simp only [hr]
          exact h1
      | spin => simp only [hr]; trivial
  | cond c t e2 ihc iht ihe2 =>
      intro cur st h
      simp only [evalCore]
      cases hr : evalCore env recEval c cur st with
      | ok st1 pr =>
          obtain ⟨v1, rds1⟩ := pr
          have h1 := ihc cur st h
          rw [hr] at h1
          simp only [hr]
          by_cases ht : truthy v1 = true
          · rw [if_pos ht]
            cases hr2 : evalCore env recEval t cur st1 with
            | ok st2 pr2 =>
                obtain ⟨v2, rds2⟩ := pr2
                have h2 := iht cur st1 h1
                rw [hr2] at h2
                simp only [hr2]
                exact h2
            | exc st2 =>
                have h2 := iht cur st1 h1
                rw [hr2] at h2
                simp only [hr2]
                exact h2
            | spin => simp only [hr2]; trivial
          · rw [if_neg ht]
            cases hr2 : evalCore env recEval e2 cur st1 with
            | ok st2 pr2 =>
                obtain ⟨v2, rds2⟩ := pr2
                have h2 := ihe2 cur st1 h1
                rw [hr2] at h2
                simp only [hr2]
                exact h2
            | exc st2 =>
                have h2 := ihe2 cur st1 h1
                rw [hr2] at h2
                simp only [hr2]
                exact h2
            | spin => simp only [hr2]; trivial
      | exc st1 =>
          have h1 := ihc cur st h
          rw [hr] at h1
          simp only [hr]
          exact h1
      | spin => simp only [hr]; trivial

theorem ResP_evalExpr (env : Nat → NodeDef) :
    ∀ (fuel : Nat) (e : Expr) (cur : Option Nat) (st : St), SymInv st →
      ResP SymInv (evalExpr env fuel e cur st) := by
  intro fuel
  induction fuel with
  | zero => intro e cur st h; trivial
  | succ fuel ih =>
      intro e cur st h
      exact ResP_evalCore env (evalExpr env fuel) (fun e cur st h => ih e cur st h) e cur st h

theorem ResP_evalList (env : Nat → NodeDef) (fuel : Nat) (cur : Option Nat) :
    ∀ (es : List Expr) (st : St), SymInv st →
      ResP SymInv (evalList env fuel cur es st) := by
  intro es
  induction es with
  | nil => intro st h; exact h
  | cons e es ihe =>
      intro st h
      simp only [evalList]
      cases hr : evalExpr env fuel e cur st with
      | ok st1 pr =>
          obtain ⟨v1, rds1⟩ := pr
          have h1 := ResP_evalExpr env fuel e cur st h
          rw [hr] at h1
          simp only [hr]
          cases hr2 : evalList env fuel cur es st1 with
          | ok st2 pr2 =>
              obtain ⟨vs2, rds2⟩ := pr2
              have h2 := ihe st1 h1
              rw [hr2] at h2
              simp only [hr2]
              exact h2
          | exc st2 =>
              have h2 := ihe st1 h1
              rw [hr2] at h2
              simp only [hr2]
              exact h2
          | spin => simp only [hr2]; trivial
      | exc st1 =>
          have h1 := ResP_evalExpr env fuel e cur st h
          rw [hr] at h1
          simp only [hr]
          exact h1
      | spin => simp only [hr]; trivial

theorem ResP_scheduleW (runD : Nat → St → Res Unit)
    (hrun : ∀ d st, SymInv st → ResP SymInv (runD d st)) :
    ∀ (d : Nat) (st : St), SymInv st → ResP SymInv (scheduleW runD d st) := by
  intro d st h
  unfold scheduleW
  by_cases hd : st.batchDepth > 0
  · rw [if_pos hd]
    exact SymInv_ext rfl rfl h
  · rw [if_neg hd]
    exact hrun d st h

theorem ResP_notifyListW (runD : Nat → St → Res Unit)
    (hrun : ∀ d st, SymInv st → ResP SymInv (runD d st)) :
    ∀ (l : List Nat) (st : St), SymInv st → ResP SymInv (notifyListW runD l st) := by
  intro l
  induction l with
  | nil => intro st h; exact h
  | cons d ds ih =>
      intro st h
      simp only [notifyListW]
      cases hr : scheduleW runD d st with
      | ok st1 u =>
          have h1 := ResP_scheduleW runD hrun d st h
          rw [hr] at h1
          simp only [hr]
          exact ih st1 h1
      | exc st1 =>
          have h1 := ResP_scheduleW runD hrun d st h
          rw [hr] at h1
          simp only [hr]
          exact h1
      | spin => simp only [hr]; trivial

theorem ResP_setDirectW (runD : Nat → St → Res Unit)
    (hrun : ∀ d st, SymInv st → ResP SymInv (runD d st)) :
    ∀ (i : Nat) (v : Val) (st : St), SymInv st → ResP SymInv (setDirectW runD i v st) := by
  intro i v st h
  unfold setDirectW
  by_cases h1 : st.values i = v
  · rw [if_pos h1]
    exact h
  · rw [if_neg h1]
    by_cases h2 : veq (st.values i) v = true
    · rw [if_pos h2]
      exact h
    · rw [if_neg h2]
      exact ResP_notifyListW runD hrun _ _ (SymInv_ext rfl rfl h)

theorem ResP_runCmdW (env : Nat → NodeDef) (fuel : Nat) (runD : Nat → St → Res Unit)
    (hrun : ∀ d st, SymInv st → ResP SymInv (runD d st)) :
    ∀ (c : Cmd) (rid : Nat) (st : St), SymInv st →
      ResP SymInv (runCmdW env fuel runD c rid st) := by
  intro c rid st h
  cases c with
  | obs es =>
      simp only [runCmdW]
      cases hr : evalList env fuel (some rid) es st with
      | ok st1 pr =>
          obtain ⟨vs, rds⟩ := pr
          have h1 := ResP_evalList env fuel (some rid) es st h
          rw [hr] at h1
          simp only [hr]
          exact SymInv_ext rfl rfl h1
      | exc st1 =>
          have h1 := ResP_evalList env fuel (some rid) es st h
          rw [hr] at h1
          simp only [hr]
          exact h1
      | spin => simp only [hr]; trivial
  | write i e =>
      simp only [runCmdW]
      cases hr : evalExpr env fuel e (some rid) st with
      | ok st1 pr =>
          obtain ⟨v1, rds1⟩ := pr
          have h1 := ResP_evalExpr env fuel e (some rid) st h
          rw [hr] at h1
          simp only [hr]
          have h2 := ResP_setDirectW runD hrun i v1 st1 h1
          cases hr2 : setDirectW runD i v1 st1 with
          | ok st2 u =>
              rw [hr2] at h2
              simp only [hr2]
              exact h2
          | exc st2 =>
              rw [hr2] at h2
              simp only [hr2]
              exact h2
          | spin => simp only [hr2]; trivial
      | exc st1 =>
          have h1 := ResP_evalExpr env fuel e (some rid) st h
          rw [hr] at h1
          simp only [hr]
          exact h1
      | spin => simp only [hr]; trivial
  | failIf e =>
      simp only [runCmdW]
      cases hr : evalExpr env fuel e (some rid) st with
      | ok st1 pr =>
          obtain ⟨v1, rds1⟩ := pr
          have h1 := ResP_evalExpr env fuel e (some rid) st h
          rw [hr] at h1
          simp only [hr]
          by_cases ht : truthy v1 = true
          · rw [if_pos ht]
            exact h1
          · rw [if_neg ht]
            exact h1
      | exc st1 =>
          have h1 := ResP_evalExpr env fuel e (some rid) st h
          rw [hr] at h1
          simp only [hr]
          exact h1
      | spin => simp only [hr]; trivial

theorem ResP_runCmdsW (env : Nat → NodeDef) (fuel : Nat) (runD : Nat → St → Res Unit)
    (hrun : ∀ d st, SymInv st → ResP SymInv (runD d st)) :
    ∀ (cs : List Cmd) (rid : Nat) (st : St), SymInv st →
      ResP SymInv (runCmdsW env fuel runD cs rid st) := by
  intro cs
  induction cs with
  | nil => intro rid st h; exact h
  | cons c cs ih =>
      intro rid st h
      simp only [runCmdsW]
      cases hr : runCmdW env fuel runD c rid st with
      | ok st1 rds =>
          have h1 := ResP_runCmdW env fuel runD hrun c rid st h
          rw [hr] at h1
          simp only [hr]
          cases hr2 : runCmdsW env fuel runD cs rid st1 with
          | ok st2 rds2 =>
              have h2 := ih rid st1 h1
              rw [hr2] at h2
              simp only [hr2]
              exact h2
          | exc st2 =>
              have h2 := ih rid st1 h1
              rw [hr2] at h2
              simp only [hr2]
              exact h2
          | spin => simp only [hr2]; trivial
      | exc st1 =>
          have h1 := ResP_runCmdW env fuel runD hrun c rid st h
          rw [hr] at h1
          simp only [hr]
          exact h1
      | spin => simp only [hr]; trivial

theorem ResP_runDeriv (env : Nat → NodeDef) :
    ∀ (fuel d : Nat) (st : St), SymInv st → ResP SymInv (runDeriv env fuel d st) := by
  intro fuel
  induction fuel with
  | zero => intro d st h; trivial
  | succ fuel ih =>
      intro d st h
      cases henv : env d with
      | cell =>
          rw [runDeriv]
          simp only [henv]
          exact h
      | comp body =>
          rw [runDeriv]
          simp only [henv]
          by_cases hd : st.dirty d = true
          · rw [if_pos hd]
            exact h
          · rw [if_neg hd]
            exact ResP_notifyListW (runDeriv env fuel) (fun d st h => ih d st h) _ _
              (SymInv_ext rfl rfl h)
      | react body =>
          rw [runDeriv]
          simp only [henv]
          by_cases hdisp : st.disposed d = true
          · rw [if_pos hdisp]
            exact h
          · rw [if_neg hdisp]
            have h1 := ResP_runCmdsW env fuel (runDeriv env fuel)
              (fun d st h => ih d st h) body d (beginRun d st) (SymInv_beginRun h d)
            cases hr : runCmdsW env fuel (runDeriv env fuel) body d (beginRun d st) with
            | ok st1 rds =>
                rw [hr] at h1
                simp only [hr]
                exact h1
            | exc st1 =>
                rw [hr] at h1
                simp only [hr]
                exact h1
            | spin => simp only [hr]; trivial
      | dreact f =>
          rw [runDeriv]
          simp only [henv]
          by_cases hdisp : st.disposed d = true
          · rw [if_pos hdisp]
            exact h
          · rw [if_neg hdisp]
            have h1 := ResP_evalExpr env fuel f (some d) (beginRun d st)
              (SymInv_beginRun h d)
            cases hr : evalExpr env fuel f (some d) (beginRun d st) with
            | ok st1 pr =>
                obtain ⟨v1, rds1⟩ := pr
                rw [hr] at h1
                simp only [hr]
                by_cases hc : (!(st1.initialized d) || !(veq v1 (st1.lastValue d))) = true
                · rw [if_pos hc]
                  exact SymInv_ext rfl rfl h1
                · rw [if_neg hc]
                  exact h1
            | exc st1 =>
                rw [hr] at h1
                simp only [hr]
                exact h1
            | spin => simp only [hr]; trivial

theorem ResP_runList (env : Nat → NodeDef) (fuel : Nat) :
    ∀ (l : List Nat) (st : St), SymInv st → ResP SymInv (runList env fuel l st) := by
  intro l
  induction l with
  | nil => intro st h; exact h
  | cons d ds ih =>
      intro st h
      simp only [runList]
      cases hr : runDeriv env fuel d st with
      | ok st1 u =>
          have h1 := ResP_runDeriv env fuel d st h
          rw [hr] at h1
          simp only [hr]
          exact ih st1 h1
      | exc st1 =>
          have h1 := ResP_runDeriv env fuel d st h
          rw [hr] at h1
          simp only [hr]
          exact h1
      | spin => simp only [hr]; trivial

theorem ResP_flushPending (env : Nat → NodeDef) :
    ∀ (fuel : Nat) (st : St), SymInv st → ResP SymInv (flushPending env fuel st) := by
  intro fuel
  induction fuel with
  | zero => intro st h; trivial
  | succ fuel ih =>
      intro st h
      rw [flushPending]
      by_cases hp : st.pending = []
      · rw [if_pos hp]
        exact h
      · rw [if_neg hp]
        have h1 := ResP_runList env fuel st.pending { st with pending := [] }
          (SymInv_ext rfl rfl h)
        cases hr : runList env fuel st.pending { st with pending := [] } with
        | ok st1 u =>
            rw [hr] at h1
            simp only [hr]
            exact ih st1 h1
        | exc st1 =>
            rw [hr] at h1
            simp only [hr]
            exact h1
        | spin => simp only [hr]; trivial

theorem ResP_endBatch (env : Nat → NodeDef) (fuel : Nat) (st : St) (h : SymInv st) :
    ResP SymInv (endBatch env fuel st) := by
  simp only [endBatch]
  by_cases hd : ({ st with batchDepth := st.batchDepth - 1 } : St).batchDepth = 0
  · rw [if_pos hd]
    exact ResP_flushPending env fuel _ (SymInv_ext rfl rfl h)
  · rw [if_neg hd]
    exact SymInv_ext rfl rfl h

theorem envRanked_envC5 : envRanked envC5 rankC5 := by
  intro c body h
  by_cases hc : c = 2
  · subst hc
    have h2 : NodeDef.comp (.uop vdouble (.readO 1)) = .comp body := h
    injection h2 with hb
    subst hb
    decide
  · exfalso
    simp [envC5, hc] at h

theorem envRanked_envC6 : envRanked envC6 rankC6 := by
  intro c body h
  by_cases hc : c = 4
  · subst hc
    exact absurd h (by simp [envC6])
  · exfalso
    simp [envC6, hc] at h

/- ### Sequencing helpers -/

/-- Step a successful public operation through `runOps`. -/
theorem runOps_cons_ok {env : Nat → NodeDef} {fuel : Nat} {op : Op} {ops : List Op}
    {st st' : St} (h : runOp env fuel op st = .ok st' ()) :
    runOps env fuel (op :: ops) st = runOps env fuel ops st' := by
  simp [runOps, h]

/-- One batched `schedule` of every member of a list: only the pending set
grows; nothing runs. -/
theorem notifyListW_batch (runD : Nat → St → Res Unit) (l : List Nat) (st : St)
    (h : 0 < st.batchDepth) :
    notifyListW runD l st = .ok { st with pending := pendAll l st.pending } () := by
  induction l generalizing st with
  | nil =>
      simp [notifyListW, pendAll]
  | cons d ds ih =>
      rw [notifyListW]
      simp only [scheduleW, h, if_true]
      exact ih { st with pending := insertD d st.pending } h

/-- A cell write inside an open batch: equal or identical values are
suppressed; a change stores the value and defers all observers to the
pending set.  No derivation runs, the log and run counters are untouched. -/
theorem setDirectW_batch (runD : Nat → St → Res Unit) (i : Nat) (v : Val) (st : St)
    (h : 0 < st.batchDepth) :
    setDirectW runD i v st = .ok (batchSet i v st) () := by
  unfold setDirectW batchSet
  by_cases h1 : st.values i = v
  · simp [h1]
  · rw [if_neg h1, if_neg h1]
    by_cases h2 : veq (st.values i) v
    · simp [h2]
    · simp only [h2, Bool.false_eq_true, if_false]
      exact notifyListW_batch runD _ _ h

/-- A changed write inside a batch, in explicit-state form. -/
theorem setDirectW_batch_change (runD : Nat → St → Res Unit) (i : Nat) (v : Val) (st : St)
    (hd : 0 < st.batchDepth) (h1 : st.values i ≠ v) (h2 : veq (st.values i) v = false) :
    setDirectW runD i v st =
      .ok { st with values := upd st.values i v,
                    pending := pendAll (st.observers i) st.pending } () := by
  rw [setDirectW_batch runD i v st hd]
  unfold batchSet
  rw [if_neg h1]
  simp [h2]

/-- `begin_batch` as a `runOps` step. -/
theorem runOps_beginB (env : Nat → NodeDef) (fuel : Nat) (ops : List Op) (st : St) :
    runOps env fuel (.beginB :: ops) st = runOps env fuel ops (beginBatch st) := rfl

/-- A changed write inside a batch as a `runOps` step. -/
theorem runOps_set_batch (env : Nat → NodeDef) (fuel : Nat) (i : Nat) (v : Val)
    (ops : List Op) (st : St) (hd : 0 < st.batchDepth) (h1 : st.values i ≠ v)
    (h2 : veq (st.values i) v = false) :
    runOps env fuel (.set i v :: ops) st =
      runOps env fuel ops
        { st with values := upd st.values i v,
                  pending := pendAll (st.observers i) st.pending } := by
  simp only [runOps, runOp]
  rw [setDirectW_batch_change (runDeriv env fuel) i v st hd h1 h2]

/-- An inner `end_batch` (depth stays positive) as a `runOps` step: no
flush happens. -/
theorem runOps_endB_noflush (env : Nat → NodeDef) (fuel : Nat) (ops : List Op) (st : St)
    (h : ¬(st.batchDepth - 1 = 0)) :
    runOps env fuel (.endB :: ops) st =
      runOps env fuel ops { st with batchDepth := st.batchDepth - 1 } := by
  simp only [runOps, runOp, endBatch]
  rw [if_neg h]

/- ### Claim theorems -/

/-- C7: no-op write suppression (invariant I3).  `Observable.set` with a
value equal by `==` to the stored one returns the state entirely unchanged:
zero observers are run or scheduled, and value, observers, pending set and
dirty flags are all untouched. -/
theorem C7_noop_write_suppressed (runD : Nat → St → Res Unit) (i : Nat) (v : Val) (st : St)
    (h : veq (st.values i) v = true) :
    setDirectW runD i v st = .ok st () := by
  unfold setDirectW
  by_cases h1 : st.values i = v
  · simp [h1]
  · simp [h1, h]

theorem C7_noop_write_suppressed_witness :
    setDirectW (fun _ st => .ok st ()) 1 (.int 0) st0 = .ok st0 () :=
  C7_noop_write_suppressed (fun _ st => .ok st ()) 1 (.int 0) st0 (by decide)

/-- C10: identity shortcut in writes.  `_set_direct` tests `old is value`
before `old != value`: a write of the identical object is a complete no-op
even when the value is not equal to itself under `==` (NaN-like), and
propagation happens exactly when the new value is a different object and
unequal.  The concrete part shows a NaN-holding cell: rewriting the same
NaN object triggers nothing although `veq` on it is non-reflexive, while
writing a different NaN object propagates. -/
theorem C10_identity_write_shortcut :
    (∀ (runD : Nat → St → Res Unit) (i : Nat) (v : Val) (st : St),
        st.values i = v → setDirectW runD i v st = .ok st ()) ∧
    (∀ (runD : Nat → St → Res Unit) (i : Nat) (v : Val) (st : St),
        st.values i ≠ v → veq (st.values i) v = false →
        setDirectW runD i v st =
          notifyListW runD (st.observers i) { st with values := upd st.values i v }) ∧
    (veq (Val.nan 0) (Val.nan 0) = false ∧
      afterOps envC10 9 [.set 1 (.nan 0)] initC10 = initC10 ∧
      (afterOps envC10 9 [.set 1 (.nan 0), .set 1 (.nan 1)] initC10).log
        = [(2, [.nan 0]), (2, [.nan 1])]) := by
  refine ⟨?_, ?_, by decide, rfl, by decide⟩
  · intro runD i v st h
    unfold setDirectW
    simp [h]
  · intro runD i v st h1 h2
    unfold setDirectW
    rw [if_neg h1]
    simp [h2]

theorem C10_identity_write_shortcut_witness :
    setDirectW (fun _ st => .ok st ()) 1 (.nan 0) initC10 = .ok initC10 () ∧
    setDirectW (fun _ st => .ok st ()) 1 (.nan 1) initC10 =
      notifyListW (fun _ st => .ok st ()) (initC10.observers 1)
        { initC10 with values := upd initC10.values 1 (.nan 1) } :=
  ⟨C10_identity_write_shortcut.1 _ 1 (.nan 0) initC10 (by decide),
   C10_identity_write_shortcut.2.1 _ 1 (.nan 1) initC10 (by decide) (by decide)⟩

/-- C9: trigger idempotence.  (1) `Computed._run` on an already-dirty node
returns the state exactly unchanged — no second propagation to its
observers.  (2) `schedule` inside a batch adds to the pending set with
deduplication, so scheduling the same derivation twice leaves the same
pending set.  (3) Concretely: two unbatched writes leave the computed
dirty with its function never run; two batched writes to a cell watched by
a reaction leave one pending entry and the reaction runs once at flush,
seeing the final value. -/
theorem C9_trigger_idempotent :
    (∀ (env : Nat → NodeDef) (fuel c : Nat) (body : Expr) (st : St),
        env c = .comp body → st.dirty c = true →
        runDeriv env (fuel + 1) c st = .ok st ()) ∧
    (∀ (runD : Nat → St → Res Unit) (d : Nat) (st : St),
        0 < st.batchDepth →
        scheduleW runD d st = .ok { st with pending := insertD d st.pending } () ∧
        insertD d (insertD d st.pending) = insertD d st.pending) ∧
    ((afterOps envC9 9 [.set 1 (.int 1), .set 1 (.int 2)] initC9c).runCount 2 = 1 ∧
      (afterOps envC9 9 [.set 1 (.int 1), .set 1 (.int 2)] initC9c).dirty 2 = true ∧
      getPendingCount (afterOps envC9 9 [.beginB, .set 1 (.int 1), .set 1 (.int 2)] initC9r) = 1 ∧
      (afterOps envC9 9 [.beginB, .set 1 (.int 1), .set 1 (.int 2), .endB] initC9r).log
        = [(3, [.int 0]), (3, [.int 2])] ∧
      (afterOps envC9 9 [.beginB, .set 1 (.int 1), .set 1 (.int 2), .endB] initC9r).runCount 3
        = 2) := by
  refine ⟨?_, ?_, by decide, by decide, by decide, by decide, by decide⟩
  · intro env fuel c body st h1 h2
    simp [runDeriv, h1, h2]
  · intro runD d st h
    exact ⟨by simp [scheduleW, h], insertD_idem d st.pending⟩

theorem C9_trigger_idempotent_witness :
    runDeriv envC9 9 2 (afterOps envC9 9 [.set 1 (.int 1)] initC9c)
      = .ok (afterOps envC9 9 [.set 1 (.int 1)] initC9c) () ∧
    scheduleW (fun _ st => .ok st ()) 3 (beginBatch initC9r)
      = .ok { beginBatch initC9r with pending := insertD 3 (beginBatch initC9r).pending } () :=
  ⟨C9_trigger_idempotent.1 envC9 8 2 (.readO 1) _ (by rfl) (by decide),
   (C9_trigger_idempotent.2.1 (fun _ st => .ok st ()) 3 (beginBatch initC9r) (by decide)).1⟩

/-- C3 counterexample: symmetry (I1) is violated by `Computed.dispose` on a
computed that has observers.  In the concrete graph — cell 1 ← computed 2 ←
reaction 3 — the edges are symmetric after setup, but `dispose()` on
computed 2 clears its own observers without removing itself from reaction
3's dependency set: afterwards 2 is still in `dependencies[3]` while 3 is
no longer in `observers[2]`. -/
theorem C3_symmetry_cex :
    SymInvOn [1, 2, 3] initC3 ∧
    ¬ SymInvOn [1, 2, 3] finC3 ∧
    2 ∈ finC3.deps 3 ∧ 3 ∉ finC3.observers 2 :=
  ⟨by decide, by decide, by decide, by decide⟩

/-- C3 amended: the symmetry invariant I1 (node `A` is in derivation `B`'s
dependencies iff `B` is in `A`'s observers, over all node ids) holds after
every completed public operation — writes, batch boundaries, computed
reads, derivation runs, `Reaction.dispose`, and node construction on fresh
ids — with one exception: `Computed.dispose` preserves it only when the
computed currently has no observers, since it clears its own observer set
without removing itself from its observers' dependency sets.  Exceptional
exits (a raising derivation function) also leave the invariant intact. -/
theorem C3_symmetry_amended :
    (∀ (env : Nat → NodeDef) (fuel : Nat) (op : Op) (st : St), SymInv st →
        (∀ c, op = .dispC c → st.observers c = []) →
        ResP SymInv (runOp env fuel op st)) ∧
    (∀ (st : St) (d : Nat), SymInv st → SymInv (disposeReaction d st)) ∧
    (∀ (st : St) (c : Nat), SymInv st → st.observers c = [] →
        SymInv (disposeComputed c st)) ∧
    (∀ (st : St) (i : Nat) (v : Val), SymInv st → st.observers i = [] →
        SymInv (mkCell i v st)) ∧
    (∀ (st : St) (c : Nat), SymInv st → st.observers c = [] → st.deps c = [] →
        SymInv (mkComputed c st)) ∧
    (∀ (st : St) (d : Nat), SymInv st → st.deps d = [] → SymInv (mkReaction d st)) ∧
    (∀ (st : St) (d : Nat), SymInv st → st.deps d = [] → SymInv (mkDataReaction d st)) ∧
    (∀ (env : Nat → NodeDef) (fuel d : Nat) (st : St), SymInv st →
        ResP SymInv (runDeriv env fuel d st)) ∧
    SymInv st0 := by
  refine ⟨?_, fun st d h => SymInv_disposeReaction h d,
    fun st c h hobs => SymInv_disposeComputed h c hobs,
    fun st i v h hobs => SymInv_mkCell h i v hobs,
    fun st c h hobs hdeps => SymInv_mkComputed h c hobs hdeps,
    fun st d h hdeps => SymInv_mkReaction h d hdeps,
    fun st d h hdeps => SymInv_mkDataReaction h d hdeps,
    fun env fuel d st h => ResP_runDeriv env fuel d st h,
    SymInv_st0⟩
  intro env fuel op st h hop
  cases op with
  | set i v =>
      exact ResP_setDirectW (runDeriv env fuel)
        (fun d st h => ResP_runDeriv env fuel d st h) i v st h
  | beginB => exact SymInv_ext rfl rfl h
  | endB => exact ResP_endBatch env fuel st h
  | getC c =>
      simp only [runOp]
      have h1 := ResP_evalExpr env fuel (.readC c) none st h
      cases hr : evalExpr env fuel (.readC c) none st with
      | ok st1 pr =>
          rw [hr] at h1
          simp only [hr]
          exact h1
      | exc st1 =>
          rw [hr] at h1
          simp only [hr]
          exact h1
      | spin => simp only [hr]; trivial
  | dispC c =>
      exact SymInv_disposeComputed h c (hop c rfl)
  | dispR d =>
      exact SymInv_disposeReaction h d

theorem C3_symmetry_amended_witness :
    SymInv (disposeReaction 3 st0) ∧
    SymInv (disposeComputed 2 st0) ∧
    ResP SymInv (runOp envC3 9 (.set 1 (.int 7)) st0) :=
  ⟨C3_symmetry_amended.2.1 st0 3 (by intro x d; simp [st0]),
   C3_symmetry_amended.2.2.1 st0 2 (by intro x d; simp [st0]) rfl,
   C3_symmetry_amended.1 envC3 9 (.set 1 (.int 7)) st0 (by intro x d; simp [st0])
     (by intro c hc; cases hc)⟩

/-- C4 counterexample: a derivation triggered by a write performed inside a
flushing derivation is NOT deferred to a later snapshot pass.  In the
concrete run, flushing reaction 3 (which logs cell 1, writes cell 2, then
logs a 99 marker) executes reaction 4 synchronously at the write: the flush
segment of the log is `(3,[5]), (4,[6]), (3,[99])` — reaction 4's entry
falls between reaction 3's two entries, whereas the claimed deferral would
put it after, as in the second (distinct) list. -/
theorem C4_flush_sync_cex :
    (stateOf runC4).log =
      [(3, [.int 0]), (3, [.int 99]), (4, [.int 1]),
        (3, [.int 5]), (4, [.int 6]), (3, [.int 99])] ∧
    ([(3, [Val.int 5]), (4, [Val.int 6]), (3, [Val.int 99])] : List (Nat × List Val)) ≠
      [(3, [Val.int 5]), (3, [Val.int 99]), (4, [Val.int 6])] :=
  ⟨by decide, by decide⟩

/-- C4 amended: during a flush the batch depth is back at zero, so
`schedule` runs a triggered derivation synchronously (it is `_run`
immediately, not added to a new pending set); in the concrete cascade the
triggered reaction's log entry lands inside the triggering reaction's run
and the flush ends with an empty pending set and no exception. -/
theorem C4_flush_sync_amended :
    (∀ (runD : Nat → St → Res Unit) (d : Nat) (st : St),
        st.batchDepth = 0 → scheduleW runD d st = runD d st) ∧
    (stateOf runC4).log.drop 3 = [(3, [.int 5]), (4, [.int 6]), (3, [.int 99])] ∧
    getPendingCount (stateOf runC4) = 0 ∧ isExc runC4 = false := by
  refine ⟨?_, by decide, by decide, by decide⟩
  intro runD d st h
  simp [scheduleW, h]

theorem C4_flush_sync_amended_witness :
    scheduleW (fun _ st => .ok st ()) 7 st0 = .ok st0 () :=
  C4_flush_sync_amended.1 (fun _ st => .ok st ()) 7 st0 rfl

/-- C2 counterexample: reaction 2 (which raises once cell 1 is truthy) and
reaction 3 both observe cell 1; a batched write makes the pending set
`[2, 3]`, and the flush snapshot runs reaction 2 first, which raises.
Contrary to the claim, reaction 3 — a member of the current snapshot that
had not yet been run — does NOT remain in the pending set: the pending
count observable through the accessor is 0, and reaction 3 never re-ran
(its function ran exactly once, at creation). -/
theorem C2_flush_abort_cex :
    (afterOps envC2 9 [.beginB, .set 1 (.int 1)] initC2).pending = [2, 3] ∧
    isExc runC2 = true ∧
    getPendingCount (stateOf runC2) = 0 ∧
    (stateOf runC2).runCount 3 = 1 ∧
    (stateOf runC2).log = [(3, [.int 0])] :=
  ⟨by decide, by decide, by decide, by decide, by decide⟩

/-- C2 amended: when a derivation raises during a flush pass, the pass
aborts (the exception propagates and later snapshot members are never
attempted), but members not yet run are dropped rather than left pending:
`_flush_pending` clears the pending set when it takes the snapshot, before
running any member, so after the abort the pending set holds only
derivations newly scheduled during the partial pass — in the concrete run,
none (pending count 0). -/
theorem C2_flush_abort_amended :
    (∀ (env : Nat → NodeDef) (fuel d : Nat) (ds : List Nat) (st st' : St),
        runDeriv env fuel d st = .exc st' →
        runList env fuel (d :: ds) st = .exc st') ∧
    (∀ (env : Nat → NodeDef) (fuel : Nat) (st : St), st.pending ≠ [] →
        flushPending env (fuel + 1) st =
          (match runList env fuel st.pending { st with pending := [] } with
            | .ok st1 _ => flushPending env fuel st1
            | .exc st1 => .exc st1
            | .spin => .spin)) ∧
    (isExc runC2 = true ∧ getPendingCount (stateOf runC2) = 0 ∧
      (stateOf runC2).runCount 3 = 1) := by
  refine ⟨?_, ?_, by decide, by decide, by decide⟩
  · intro env fuel d ds st st' h
    simp [runList, h]
  · intro env fuel st h
    rw [flushPending, if_neg h]

/-- C1: glitch-freedom of batches.  (1) Generally, while a batch is open a
cell write runs nothing: it only stores the value and defers the observers
to the (deduplicated) pending set — log and run counters are untouched, so
no derivation can observe anything mid-batch.  (2) For arbitrary values:
cells 1 and 2 start at `(x0, y0)`; a batch writes `(x1, y1)`; the eager
derivation reading both logs exactly `[x0, y0]` (at creation) and then
`[x1, y1]` (at flush) — never a mixed pair; mid-batch the log is still the
single pre-batch entry and exactly one deduplicated pending entry exists.
(3) Nested batches: the inner `end_batch` does not flush (log unchanged,
depth 1, entry still pending); only the outermost boundary flushes, and the
derivation then sees both new values at once. -/
theorem C1_glitch_free :
    (∀ (runD : Nat → St → Res Unit) (i : Nat) (v : Val) (st : St),
        0 < st.batchDepth →
        setDirectW runD i v st = .ok (batchSet i v st) ()) ∧
    (∀ x0 y0 x1 y1 : Int, x0 ≠ x1 → y0 ≠ y1 →
        (afterOps envC1 9 [.beginB, .set 1 (.int x1), .set 2 (.int y1)]
            (initC1 (.int x0) (.int y0))).log = [(3, [.int x0, .int y0])] ∧
        getPendingCount (afterOps envC1 9 [.beginB, .set 1 (.int x1), .set 2 (.int y1)]
            (initC1 (.int x0) (.int y0))) = 1 ∧
        (afterOps envC1 9 [.beginB, .set 1 (.int x1), .set 2 (.int y1), .endB]
            (initC1 (.int x0) (.int y0))).log
          = [(3, [.int x0, .int y0]), (3, [.int x1, .int y1])]) ∧
    (∀ x0 y0 x1 y1 : Int, x0 ≠ x1 → y0 ≠ y1 →
        (afterOps envC1 9 [.beginB, .beginB, .set 1 (.int x1), .endB]
            (initC1 (.int x0) (.int y0))).log = [(3, [.int x0, .int y0])] ∧
        (afterOps envC1 9 [.beginB, .beginB, .set 1 (.int x1), .endB]
            (initC1 (.int x0) (.int y0))).batchDepth = 1 ∧
        (afterOps envC1 9 [.beginB, .beginB, .set 1 (.int x1), .endB]
            (initC1 (.int x0) (.int y0))).pending = [3] ∧
        (afterOps envC1 9 [.beginB, .beginB, .set 1 (.int x1), .endB, .set 2 (.int y1), .endB]
            (initC1 (.int x0) (.int y0))).log
          = [(3, [.int x0, .int y0]), (3, [.int x1, .int y1])]) := by
  refine ⟨fun runD i v st hd => setDirectW_batch runD i v st hd, ?_, ?_⟩
  · intro x0 y0 x1 y1 hx hy
    have hvx : Val.int x0 ≠ Val.int x1 := by simp [hx]
    have hex : veq (Val.int x0) (Val.int x1) = false := by simp [veq, hx]
    have hvy : Val.int y0 ≠ Val.int y1 := by simp [hy]
    have hey : veq (Val.int y0) (Val.int y1) = false := by simp [veq, hy]
    refine ⟨?_, ?_, ?_⟩ <;>
    · unfold afterOps
      rw [runOps_beginB,
          runOps_set_batch envC1 9 1 (Val.int x1) _ _ (Nat.succ_pos _) hvx hex,
          runOps_set_batch envC1 9 2 (Val.int y1) _ _ (Nat.succ_pos _) hvy hey]
      rfl
  · intro x0 y0 x1 y1 hx hy
    have hvx : Val.int x0 ≠ Val.int x1 := by simp [hx]
    have hex : veq (Val.int x0) (Val.int x1) = false := by simp [veq, hx]
    have hvy : Val.int y0 ≠ Val.int y1 := by simp [hy]
    have hey : veq (Val.int y0) (Val.int y1) = false := by simp [veq, hy]
    refine ⟨?_, ?_, ?_, ?_⟩ <;>
    · unfold afterOps
      rw [runOps_beginB, runOps_beginB,
          runOps_set_batch envC1 9 1 (Val.int x1) _ _ (Nat.succ_pos _) hvx hex,
          runOps_endB_noflush envC1 9 _ _ (by exact Nat.one_ne_zero)]
      first
      | rfl
      | rw [runOps_set_batch envC1 9 2 (Val.int y1) _ _ (Nat.succ_pos _) hvy hey]
        rfl

theorem C1_glitch_free_witness :
    setDirectW (fun _ st => .ok st ()) 1 (.int 7) (beginBatch st0)
      = .ok (batchSet 1 (.int 7) (beginBatch st0)) () ∧
    (afterOps envC1 9 [.beginB, .set 1 (.int 1), .set 2 (.int 2), .endB]
        (initC1 (.int 0) (.int 0))).log
      = [(3, [.int 0, .int 0]), (3, [.int 1, .int 2])] ∧
    (afterOps envC1 9 [.beginB, .beginB, .set 1 (.int 1), .endB, .set 2 (.int 2), .endB]
        (initC1 (.int 0) (.int 0))).log
      = [(3, [.int 0, .int 0]), (3, [.int 1, .int 2])] :=
  ⟨C1_glitch_free.1 (fun _ st => .ok st ()) 1 (.int 7) (beginBatch st0) (by decide),
   (C1_glitch_free.2.1 0 0 1 2 (by decide) (by decide)).2.2,
   (C1_glitch_free.2.2 0 0 1 2 (by decide) (by decide)).2.2.2⟩

/-- C5: laziness of `Computed`.  (1) Construction runs the wrapped function
zero times and starts dirty.  (2) A `get()` while clean performs no
recomputation: it only registers the read edge and returns the cached value
(for a top-level `get`, `cur = none`, the state is returned exactly
unchanged).  (3) A `get()` while dirty — under the acyclic rank discipline
of well-formed graphs — runs the wrapped function exactly once, caches the
result and becomes clean.  (4) Concretely, for `Computed(lambda: cell*2)`
over `cell = 5`: zero runs before the first `get`, one run and cache 10
after it, still one run after a second consecutive `get`, which leaves the
state identical. -/
theorem C5_lazy_once :
    (∀ (c : Nat) (st : St),
        (mkComputed c st).runCount c = 0 ∧ (mkComputed c st).dirty c = true) ∧
    (∀ (env : Nat → NodeDef) (fuel c : Nat) (cur : Option Nat) (st : St),
        st.dirty c = false →
        evalExpr env (fuel + 1) (.readC c) cur st =
          .ok (registerDep cur c st) ((st.cached c).getD (.int 0), [c])) ∧
    (∀ (env : Nat → NodeDef) (rank : Nat → Nat) (fuel c : Nat) (body : Expr)
        (cur : Option Nat) (st st' : St) (v : Val) (rds : List Nat),
        envRanked env rank → env c = .comp body → st.dirty c = true →
        evalExpr env (fuel + 1) (.readC c) cur st = .ok st' (v, rds) →
        st'.runCount c = st.runCount c + 1 ∧ st'.dirty c = false ∧
        st'.cached c = some v) ∧
    (initC5.runCount 2 = 0 ∧
      (afterOps envC5 9 [.getC 2] initC5).runCount 2 = 1 ∧
      (afterOps envC5 9 [.getC 2] initC5).cached 2 = some (.int 10) ∧
      (afterOps envC5 9 [.getC 2] initC5).dirty 2 = false ∧
      (afterOps envC5 9 [.getC 2, .getC 2] initC5).runCount 2 = 1 ∧
      afterOps envC5 9 [.getC 2, .getC 2] initC5 = afterOps envC5 9 [.getC 2] initC5) := by
  refine ⟨?_, ?_, ?_, by decide, by decide, by decide, by decide, by decide, rfl⟩
  · intro c st
    constructor <;> simp [mkComputed]
  · intro env fuel c cur st h
    rw [evalExpr]
    simp [evalCore, h]
  · intro env rank fuel c body cur st st' v rds henv hc hdirty h
    rw [evalExpr] at h
    simp only [evalCore, registerDep_dirty] at h
    rw [if_pos hdirty] at h
    simp only [hc] at h
    cases heval : evalExpr env fuel body (some c) (beginRun c (registerDep cur c st)) with
    | ok st2 pr =>
        obtain ⟨v2, rds2⟩ := pr
        simp only [heval] at h
        injection h with h1 h2
        injection h2 with h2a h2b
        subst h1
        subst h2a
        subst h2b
        have frame := evalExpr_frame env rank henv fuel body (some c)
          (beginRun c (registerDep cur c st)) st2 v2 rds2 (rank c)
          (henv c body hc) heval
        obtain ⟨hrc, hdy, hch⟩ := frame.1 c (le_refl (rank c))
        refine ⟨?_, by simp, by simp⟩
        show st2.runCount c = st.runCount c + 1
        rw [hrc, beginRun_runCount_self]
        simp
    | exc st2 =>
        rw [heval] at h
        cases h
    | spin =>
        rw [heval] at h
        cases h

theorem C5_lazy_once_witness :
    ((mkComputed 2 (mkCell 1 (.int 5) st0)).runCount 2 = 0 ∧
      (mkComputed 2 (mkCell 1 (.int 5) st0)).dirty 2 = true) ∧
    evalExpr envC5 9 (.readC 2) none (afterOps envC5 9 [.getC 2] initC5) =
      .ok (registerDep none 2 (afterOps envC5 9 [.getC 2] initC5))
        (((afterOps envC5 9 [.getC 2] initC5).cached 2).getD (.int 0), [2]) ∧
    ((stateOf (evalExpr envC5 9 (.readC 2) none initC5)).runCount 2 = initC5.runCount 2 + 1 ∧
      (stateOf (evalExpr envC5 9 (.readC 2) none initC5)).dirty 2 = false ∧
      (stateOf (evalExpr envC5 9 (.readC 2) none initC5)).cached 2 = some (.int 10)) :=
  ⟨C5_lazy_once.1 2 (mkCell 1 (.int 5) st0),
   C5_lazy_once.2.1 envC5 8 2 none (afterOps envC5 9 [.getC 2] initC5) (by decide),
   C5_lazy_once.2.2.1 envC5 rankC5 8 2 (.uop vdouble (.readO 1)) none initC5
     (stateOf (evalExpr envC5 9 (.readC 2) none initC5)) (.int 10) [2]
     envRanked_envC5 rfl (by decide) (by rfl)⟩

/-- C6: freshness of dependency sets (invariant I2).  (1) For an eager
derivation with an observe-only body under the rank discipline: a
successful `_run` starts from a cleared dependency set and ends with
`dependencies` holding exactly the reads of that evaluation.  (2) For a
`Computed`: after a successful `_recompute` body evaluation the dependency
set holds exactly the reads of that evaluation.  (3) Concretely, the
`flag ? a : b` switch: the reaction first depends on `{flag, a}`; after
`flag` goes false it depends exactly on `{flag, b}` and leaves `a`'s
observer set, so a later change to `a` alone triggers nothing (run count
and log unchanged). -/
theorem C6_fresh_deps :
    (∀ (env : Nat → NodeDef) (rank : Nat → Nat) (fuel d : Nat) (body : List Cmd)
        (st st' : St) (rds : List Nat),
        envRanked env rank → env d = .react body →
        body.all (cmdObsBelow rank (rank d)) = true → st.disposed d = false →
        runCmdsW env fuel (runDeriv env fuel) body d (beginRun d st) = .ok st' rds →
        runDeriv env (fuel + 1) d st = .ok st' () ∧
        (∀ x, x ∈ st'.deps d ↔ x ∈ rds)) ∧
    (∀ (env : Nat → NodeDef) (rank : Nat → Nat) (fuel c : Nat) (body : Expr)
        (st st2 : St) (v : Val) (rds : List Nat),
        envRanked env rank → env c = .comp body →
        evalExpr env fuel body (some c) (beginRun c st) = .ok st2 (v, rds) →
        (∀ x, x ∈ st2.deps c ↔ x ∈ rds)) ∧
    (initC6.deps 4 = [1, 2] ∧ initC6.observers 2 = [4] ∧ initC6.observers 3 = [] ∧
      (afterOps envC6 9 [.set 1 (.int 0)] initC6).deps 4 = [1, 3] ∧
      (afterOps envC6 9 [.set 1 (.int 0)] initC6).observers 2 = [] ∧
      (afterOps envC6 9 [.set 1 (.int 0)] initC6).observers 3 = [4] ∧
      (afterOps envC6 9 [.set 1 (.int 0)] initC6).runCount 4 = 2 ∧
      (afterOps envC6 9 [.set 1 (.int 0), .set 2 (.int 99)] initC6).runCount 4 = 2 ∧
      (afterOps envC6 9 [.set 1 (.int 0), .set 2 (.int 99)] initC6).log
        = [(4, [.int 10]), (4, [.int 20])]) := by
  refine ⟨?_, ?_, by decide, by decide, by decide, by decide, by decide, by decide,
    by decide, by decide, by decide⟩
  · intro env rank fuel d body st st' rds henv hd hobs hdisp h
    constructor
    · rw [runDeriv]
      simp only [hd]
      simp only [hdisp, Bool.false_eq_true, if_false]
      rw [h]
    · have frame := runCmdsW_frame_obs env rank henv fuel (runDeriv env fuel) d body
        (beginRun d st) st' rds hobs h
      intro x
      have h3 := frame.2.2 d (le_refl (rank d)) rfl x
      rw [h3, beginRun_deps_self]
      simp
  · intro env rank fuel c body st st2 v rds henv hc h
    have frame := evalExpr_frame env rank henv fuel body (some c) (beginRun c st) st2 v rds
      (rank c) (henv c body hc) h
    intro x
    have h3 := frame.2.2 c (le_refl (rank c)) rfl x
    rw [h3, beginRun_deps_self]
    simp

theorem C6_fresh_deps_witness :
    (runDeriv envC6 9 4 (mkReaction 4 c6Pre) = .ok initC6 () ∧
      (∀ x, x ∈ initC6.deps 4 ↔ x ∈ [1, 2])) ∧
    (∀ x, x ∈ c5Mid.deps 2 ↔ x ∈ [1]) :=
  ⟨C6_fresh_deps.1 envC6 rankC6 8 4 c6Body (mkReaction 4 c6Pre) initC6 [1, 2]
      envRanked_envC6 rfl (by decide) (by decide) (by rfl),
   C6_fresh_deps.2.1 envC5 rankC5 8 2 (.uop vdouble (.readO 1)) initC5 c5Mid (.int 10) [1]
      envRanked_envC5 rfl (by rfl)⟩

/-- C8: value-gated suppression.  (1) Generally: on a trigger of a
non-disposed `_DataReaction` whose data function evaluates to `v`, the run
equals the gated update — and the effect fires (a log entry is appended)
if and only if the reaction is uninitialized or `v` differs by `==` from
`last_value`; when it fires, `last_value`/`initialized` are updated.
(2) Concretely, the parity reaction over a cell: creation (without
`fire_immediately`) runs the data function once without firing; `1 → 3`
(parity unchanged) does not fire; `3 → 4` fires exactly once with the new
parity `0`; `4 → 6` does not fire again; the data function ran on every
trigger (run count 4). -/
theorem C8_value_gated_effect :
    (∀ (env : Nat → NodeDef) (fuel d : Nat) (f : Expr) (st st1 : St) (v : Val)
        (rds : List Nat),
        env d = .dreact f → st.disposed d = false →
        evalExpr env fuel f (some d) (beginRun d st) = .ok st1 (v, rds) →
        runDeriv env (fuel + 1) d st =
          (if !(st1.initialized d) || !(veq v (st1.lastValue d)) then
            .ok { st1 with lastValue := upd st1.lastValue d v,
                           initialized := upd st1.initialized d true,
                           log := st1.log ++ [(d, [v])] } ()
          else .ok st1 ()) ∧
        ((stateOf (runDeriv env (fuel + 1) d st)).log = st1.log ++ [(d, [v])] ↔
          (st1.initialized d = false ∨ veq v (st1.lastValue d) = false))) ∧
    (initC8.log = [] ∧ initC8.initialized 2 = true ∧ initC8.lastValue 2 = .int 1 ∧
      initC8.runCount 2 = 1 ∧
      (afterOps envC8 9 [.set 1 (.int 3)] initC8).log = [] ∧
      (afterOps envC8 9 [.set 1 (.int 3)] initC8).runCount 2 = 2 ∧
      (afterOps envC8 9 [.set 1 (.int 3), .set 1 (.int 4)] initC8).log = [(2, [.int 0])] ∧
      (afterOps envC8 9 [.set 1 (.int 3), .set 1 (.int 4)] initC8).runCount 2 = 3 ∧
      (afterOps envC8 9 [.set 1 (.int 3), .set 1 (.int 4), .set 1 (.int 6)] initC8).log
        = [(2, [.int 0])] ∧
      (afterOps envC8 9 [.set 1 (.int 3), .set 1 (.int 4), .set 1 (.int 6)] initC8).runCount 2
        = 4) := by
  refine ⟨?_, by decide, by decide, by decide, by decide, by decide, by decide, by decide,
    by decide, by decide, by decide⟩
  intro env fuel d f st st1 v rds hd hdisp heval
  have heq : runDeriv env (fuel + 1) d st =
      (if !(st1.initialized d) || !(veq v (st1.lastValue d)) then
        .ok { st1 with lastValue := upd st1.lastValue d v,
                       initialized := upd st1.initialized d true,
                       log := st1.log ++ [(d, [v])] } ()
      else .ok st1 ()) := by
    rw [runDeriv]
    simp only [hd]
    simp only [hdisp, Bool.false_eq_true, if_false]
    rw [heval]
  refine ⟨heq, ?_⟩
  rw [heq]
  by_cases hcond : (!(st1.initialized d) || !(veq v (st1.lastValue d))) = true
  · rw [if_pos hcond]
    simp only [Bool.or_eq_true, Bool.not_eq_true'] at hcond
    constructor
    · exact fun _ => hcond
    · exact fun _ => rfl
  · rw [if_neg hcond]
    simp only [Bool.or_eq_true, Bool.not_eq_true'] at hcond
    push_neg at hcond
    simp only [stateOf]
    constructor
    · intro hlog
      exfalso
      have hlen := congrArg List.length hlog
      simp at hlen
    · intro hrhs
      exfalso
      rcases hrhs with h1 | h1
      · exact hcond.1 h1
      · exact hcond.2 h1

theorem C8_value_gated_effect_witness :
    runDeriv envC8 9 2 c8Trig = .ok c8Mid () ∧
    ((stateOf (runDeriv envC8 9 2 c8Trig)).log = c8Mid.log ++ [(2, [.int 1])] ↔
      (c8Mid.initialized 2 = false ∨ veq (.int 1) (c8Mid.lastValue 2) = false)) :=
  ⟨(C8_value_gated_effect.1 envC8 8 2 (.uop vparity (.readO 1)) c8Trig c8Mid (.int 1) [1]
      rfl (by decide) (by rfl)).1,
   (C8_value_gated_effect.1 envC8 8 2 (.uop vparity (.readO 1)) c8Trig c8Mid (.int 1) [1]
      rfl (by decide) (by rfl)).2⟩

theorem C2_flush_abort_amended_witness :
    runList envC2 8 (2 :: [3]) c2Mid = .exc (stateOf (runDeriv envC2 8 2 c2Mid)) ∧
    flushPending envC2 1 { st0 with pending := [5] } = .spin :=
  ⟨C2_flush_abort_amended.1 envC2 8 2 [3] c2Mid _ (by rfl),
   C2_flush_abort_amended.2.1 envC2 0 { st0 with pending := [5] } (by decide)⟩

end Snarfx
